import Mathlib

/-!
# Open-Reality runtime core: a shallow embedding with verified properties

This file embeds the per-frame runtime simulation core of the Open-Reality
scene player (the Rust crates `openreality-web` and `openreality-gpu-shared`)
into Lean 4 and proves, or refutes, a list of specification claims about it.

Modelling conventions:
* `f32`/`f64` scalars of the particle subsystem are modelled as exact
  rationals (`ℚ`); the animation / transform / skinning subsystem and the
  cascade-split utility, which use transcendental functions (`acos`, `sin`,
  `sqrt`, `powf`), are modelled over the reals (`ℝ`).
* Rust slice indexing that can panic (`values[i]`) is modelled with
  `List.get?` and an `Option` result (`none` = panic).  Indexing that is
  syntactically guarded by an in-range test in the source is modelled with
  the corresponding `List.get?` match (the `none` branch coinciding with
  the guarded fallback of the source).
* The global xorshift RNG state (`static mut RAND_STATE: u32`) is threaded
  explicitly as a `ℕ` (< 2^32) in/out parameter.
* In-place mutation is modelled by explicit state passing.
-/

namespace OpenReality

/-! ## Small scalar helpers (particles.rs `lerp`, f32 `clamp`) -/

/-- `lerp` from particles.rs: `a + (b - a) * t`. -/
def lerp (a b t : ℚ) : ℚ := a + (b - a) * t

/-- Rust `f32::clamp(lo, hi)`: `min(max(x, lo), hi)`. -/
def clampQ (x lo hi : ℚ) : ℚ := min (max x lo) hi

/-! ## Vectors over ℚ (glam `Vec3`, single precision, exact model) -/

/-- glam `Vec3` (f32 components), modelled over ℚ. -/
structure Vec3 where
  x : ℚ
  y : ℚ
  z : ℚ
deriving DecidableEq, Repr

instance : Add Vec3 := ⟨fun a b => ⟨a.x + b.x, a.y + b.y, a.z + b.z⟩⟩
instance : Sub Vec3 := ⟨fun a b => ⟨a.x - b.x, a.y - b.y, a.z - b.z⟩⟩

/-- Scalar multiplication `v * s` (glam `Vec3 * f32`). -/
def Vec3.scale (v : Vec3) (s : ℚ) : Vec3 := ⟨v.x * s, v.y * s, v.z * s⟩

/-- glam `Vec3::length_squared`. -/
def Vec3.length_squared (v : Vec3) : ℚ := v.x * v.x + v.y * v.y + v.z * v.z

/-! ## particles.rs: data types -/

/-- `Particle` (particles.rs). -/
structure Particle where
  position : Vec3
  velocity : Vec3
  lifetime : ℚ
  max_lifetime : ℚ
  size : ℚ
  alive : Bool
deriving DecidableEq, Repr

/-- `ParticleConfig` (particles.rs).  Colors are `[f32; 3]`, modelled as
three rationals. -/
structure ParticleConfig where
  max_particles : ℕ
  emission_rate : ℚ
  burst_count : ℤ
  lifetime_min : ℚ
  lifetime_max : ℚ
  velocity_min : Vec3
  velocity_max : Vec3
  gravity_modifier : ℚ
  damping : ℚ
  start_size_min : ℚ
  start_size_max : ℚ
  end_size : ℚ
  start_color : Vec3
  end_color : Vec3
  start_alpha : ℚ
  end_alpha : ℚ
  additive : Bool
deriving DecidableEq, Repr

/-- `const GRAVITY: Vec3 = Vec3::new(0.0, -9.81, 0.0)`. -/
def GRAVITY : Vec3 := ⟨0, -981/100, 0⟩

/-- `ParticlePool` (particles.rs).  The backing particle array and flat
vertex buffer are lists; `emit_accumulator` is the continuous-emission
accumulator. -/
structure ParticlePool where
  particles : List Particle
  emit_accumulator : ℚ
  vertex_data : List ℚ
  vertex_count : ℕ
  alive_count : ℕ
deriving DecidableEq, Repr

/-- A dead zero particle, as produced by `ParticlePool::new` /
`resize_with` (particles.rs). -/
def deadParticle : Particle :=
  { position := ⟨0, 0, 0⟩, velocity := ⟨0, 0, 0⟩, lifetime := 0,
    max_lifetime := 1, size := 0, alive := false }

/-- `ParticlePool::new(max_particles)`. -/
def ParticlePool.new (max_particles : ℕ) : ParticlePool :=
  { particles := List.replicate max_particles deadParticle,
    emit_accumulator := 0,
    vertex_data := List.replicate (max_particles * 6 * 9) 0,
    vertex_count := 0,
    alive_count := 0 }

/-- `Vec::resize_with` / `Vec::resize` semantics: truncate or pad. -/
def listResize {α : Type} (l : List α) (n : ℕ) (fill : α) : List α :=
  if n ≤ l.length then l.take n else l ++ List.replicate (n - l.length) fill

/-- `ParticlePool::resize` (particles.rs): if `max_particles` changed,
resize the particle array (new slots dead) and the vertex buffer. -/
def ParticlePool.resize (pool : ParticlePool) (max_particles : ℕ) : ParticlePool :=
  if pool.particles.length ≠ max_particles then
    { pool with
      particles := listResize pool.particles max_particles deadParticle,
      vertex_data := listResize pool.vertex_data (max_particles * 6 * 9) 0 }
  else pool

/-! ## particles.rs: the xorshift RNG (global `RAND_STATE`, threaded
explicitly). -/

/-- One xorshift32 step of the global `RAND_STATE` (particles.rs
`rand_f32`), on `ℕ` with explicit wrap-around at `2^32`. -/
def xorshift32 (s : ℕ) : ℕ :=
  let s1 := (s ^^^ (s * 2 ^ 13)) % 2 ^ 32
  let s2 := s1 ^^^ (s1 / 2 ^ 17)
  (s2 ^^^ (s2 * 2 ^ 5)) % 2 ^ 32

/-- `rand_f32`: advance the RNG state and return `state / u32::MAX`. -/
def rand_f32 (s : ℕ) : ℕ × ℚ :=
  let s' := xorshift32 s
  (s', (s' : ℚ) / 4294967295)

/-- `rand_range(lo, hi)`: `lo + (hi - lo) * rand_f32()`. -/
def rand_range (lo hi : ℚ) (s : ℕ) : ℕ × ℚ :=
  let (s', r) := rand_f32 s
  (s', lo + (hi - lo) * r)

/-! ## particles.rs: emission -/

/-- Body of `ParticlePool::emit`: walk the slots, revive the first dead
one.  Returns the new slot list, the new RNG state and the `bool` result
of `emit` (`false` = pool full). -/
def emitGo (origin : Vec3) (config : ParticleConfig) :
    List Particle → ℕ → List Particle × ℕ × Bool
  | [], s => ([], s, false)
  | p :: ps, s =>
    if !p.alive then
      let (s1, vx) := rand_range config.velocity_min.x config.velocity_max.x s
      let (s2, vy) := rand_range config.velocity_min.y config.velocity_max.y s1
      let (s3, vz) := rand_range config.velocity_min.z config.velocity_max.z s2
      let (s4, ml) := rand_range config.lifetime_min config.lifetime_max s3
      let (s5, sz) := rand_range config.start_size_min config.start_size_max s4
      ({ position := origin, velocity := ⟨vx, vy, vz⟩, lifetime := ml,
         max_lifetime := ml, size := sz, alive := true } :: ps, s5, true)
    else
      let (ps', s', ok) := emitGo origin config ps s
      (p :: ps', s', ok)

/-- `ParticlePool::emit` (particles.rs). -/
def ParticlePool.emit (pool : ParticlePool) (origin : Vec3)
    (config : ParticleConfig) (s : ℕ) : ParticlePool × ℕ × Bool :=
  let r := emitGo origin config pool.particles s
  ({ pool with particles := r.1 }, r.2.1, r.2.2)

/-- The burst-emission loop of `ParticlePool::update`:
`for _ in 0..burst_count { if !self.emit(..) { break } }`. -/
def burstLoop (origin : Vec3) (config : ParticleConfig) :
    ℕ → ParticlePool → ℕ → ParticlePool × ℕ
  | 0, pool, s => (pool, s)
  | n + 1, pool, s =>
    let (pool', s', ok) := pool.emit origin config s
    if ok then burstLoop origin config n pool' s' else (pool', s')

/-- The burst-emission step of `ParticlePool::update` (particles.rs):
if `burst_count > 0`, emit up to that many particles, then zero the
burst count. -/
def burstStep (pool : ParticlePool) (origin : Vec3)
    (config : ParticleConfig) (s : ℕ) : ParticlePool × ParticleConfig × ℕ :=
  if 0 < config.burst_count then
    let (pool', s') := burstLoop origin config config.burst_count.toNat pool s
    (pool', { config with burst_count := 0 }, s')
  else (pool, config, s)

/-- The continuous-emission loop of `ParticlePool::update`:
`while emit_accumulator >= 1.0 { if !emit { break }; acc -= 1.0 }`.
The accumulator strictly decreases by one on each iteration, which bounds
the iteration count by `⌈acc⌉`. -/
def continuousLoop (origin : Vec3) (config : ParticleConfig)
    (pool : ParticlePool) (s : ℕ) : ParticlePool × ℕ :=
  if h : 1 ≤ pool.emit_accumulator then
    let r := pool.emit origin config s
    if r.2.2 then
      continuousLoop origin config
        { r.1 with emit_accumulator := r.1.emit_accumulator - 1 } r.2.1
    else (r.1, r.2.1)
  else (pool, s)
termination_by (⌈pool.emit_accumulator⌉).toNat
decreasing_by
  have hacc : (pool.emit origin config s).1.emit_accumulator = pool.emit_accumulator := rfl
  rw [hacc]
  have h1 : (1 : ℤ) ≤ ⌈pool.emit_accumulator⌉ := by
    have := Int.le_ceil pool.emit_accumulator
    have : (1 : ℚ) ≤ (⌈pool.emit_accumulator⌉ : ℚ) := le_trans h this
    exact_mod_cast this
  have h2 : ⌈pool.emit_accumulator - 1⌉ = ⌈pool.emit_accumulator⌉ - 1 :=
    Int.ceil_sub_one pool.emit_accumulator
  omega

/-- The continuous-emission step of `ParticlePool::update`: add
`emission_rate * dt` to the accumulator, then run the emission loop. -/
def continuousStep (pool : ParticlePool) (dt : ℚ) (origin : Vec3)
    (config : ParticleConfig) (s : ℕ) : ParticlePool × ℕ :=
  continuousLoop origin config
    { pool with emit_accumulator := pool.emit_accumulator + config.emission_rate * dt } s

/-! ## particles.rs: simulation -/

/-- Per-particle body of `ParticlePool::simulate`. -/
def simParticle (dt gravity_modifier damping : ℚ) (p : Particle) : Particle :=
  if !p.alive then p
  else
    let lt := p.lifetime - dt
    if lt ≤ 0 then { p with lifetime := lt, alive := false }
    else
      let v1 := p.velocity + (GRAVITY.scale gravity_modifier).scale dt
      let v2 := v1.scale (1 - damping * dt)
      { p with lifetime := lt, velocity := v2, position := p.position + v2.scale dt }

/-- `ParticlePool::simulate` (particles.rs): integrate all particles and
record the number of survivors in `alive_count`. -/
def ParticlePool.simulate (pool : ParticlePool) (dt gravity_modifier damping : ℚ) :
    ParticlePool :=
  let ps := pool.particles.map (simParticle dt gravity_modifier damping)
  { pool with particles := ps, alive_count := ps.countP (·.alive) }

/-! ## particles.rs: depth sort -/

/-- `slice::swap(i, j)` on a list (indices in range in every use site;
out-of-range leaves the list unchanged). -/
def listSwap {α : Type} (l : List α) (i j : ℕ) : List α :=
  match l.get? i, l.get? j with
  | some a, some b => (l.set i b).set j a
  | _, _ => l

/-- The alive-to-front partition loop of `ParticlePool::sort_back_to_front`:
iterate `i` over `0..n`, swapping each alive particle down to the `write`
cursor. -/
def partitionAlive (ps : List Particle) : List Particle × ℕ :=
  (List.range ps.length).foldl
    (fun acc i =>
      if (acc.1.get? i).any (·.alive) then
        (if i ≠ acc.2 then listSwap acc.1 i acc.2 else acc.1, acc.2 + 1)
      else acc)
    (ps, 0)

/-- The comparator of `sort_back_to_front`: `a` precedes `b` when `b` is
no farther from the camera (farthest first, descending squared
distance). -/
def fartherFirst (cam_pos : Vec3) (a b : Particle) : Bool :=
  decide ((b.position - cam_pos).length_squared ≤ (a.position - cam_pos).length_squared)

/-- `ParticlePool::sort_back_to_front` (particles.rs): partition alive
particles to the front, then stably sort that prefix farthest-first. -/
def ParticlePool.sort_back_to_front (pool : ParticlePool) (cam_pos : Vec3) :
    ParticlePool :=
  let (ps, write) := partitionAlive pool.particles
  let sorted := (ps.take write).mergeSort (fartherFirst cam_pos) ++ ps.drop write
  { pool with particles := sorted }

/-! ## particles.rs: billboard build -/

/-- Write the nine floats of one billboard vertex at `offset`
(`build_billboards` inner write). -/
def writeVertex (vd : List ℚ) (offset : ℕ) (pos : Vec3) (u v r g b a : ℚ) : List ℚ :=
  ((((((((vd.set offset pos.x).set (offset + 1) pos.y).set (offset + 2) pos.z).set
      (offset + 3) u).set (offset + 4) v).set (offset + 5) r).set
      (offset + 6) g).set (offset + 7) b).set (offset + 8) a

/-- The corner loop of `build_billboards`: for each of the six corners,
write one vertex if it fits in the buffer. -/
def cornersFold (r g b a : ℚ) (corners : List (Vec3 × ℚ × ℚ)) :
    List ℚ × ℕ × ℕ → List ℚ × ℕ × ℕ :=
  fun acc =>
    corners.foldl
      (fun (acc : List ℚ × ℕ × ℕ) c =>
        let (vd, offset, vc) := acc
        if offset + 9 ≤ vd.length then
          (writeVertex vd offset c.1 c.2.1 c.2.2 r g b a, offset + 9, vc + 1)
        else acc)
      acc

/-- Per-particle body of `build_billboards`: skip dead particles, else
interpolate size/color/alpha by normalized age and append the two
triangles (six vertices). -/
def billboardStep (config : ParticleConfig) (cam_right cam_up : Vec3)
    (acc : List ℚ × ℕ × ℕ) (p : Particle) : List ℚ × ℕ × ℕ :=
  if !p.alive then acc
  else
    let t := 1 - clampQ (p.lifetime / p.max_lifetime) 0 1
    let size := lerp p.size config.end_size t
    let half := size * (1 / 2)
    let r := lerp config.start_color.x config.end_color.x t
    let g := lerp config.start_color.y config.end_color.y t
    let b := lerp config.start_color.z config.end_color.z t
    let a := lerp config.start_alpha config.end_alpha t
    let right := cam_right.scale half
    let up := cam_up.scale half
    let bl := p.position - right - up
    let br := p.position + right - up
    let tr := p.position + right + up
    let tl := p.position - right + up
    cornersFold r g b a
      [(bl, 0, 0), (br, 1, 0), (tr, 1, 1), (bl, 0, 0), (tr, 1, 1), (tl, 0, 1)] acc

/-- `ParticlePool::build_billboards` (particles.rs). -/
def ParticlePool.build_billboards (pool : ParticlePool)
    (config : ParticleConfig) (cam_right cam_up : Vec3) : ParticlePool :=
  let res := pool.particles.foldl (billboardStep config cam_right cam_up)
    (pool.vertex_data, 0, 0)
  { pool with vertex_data := res.1, vertex_count := res.2.2 }

/-! ## particles.rs: full per-frame update -/

/-- `ParticlePool::update` (particles.rs): resize, burst emission,
continuous emission, integration, depth sort, billboard build.  Returns
the new pool, the (burst-acknowledged) config, and the new RNG state. -/
def ParticlePool.update (pool : ParticlePool) (dt : ℚ) (origin : Vec3)
    (config : ParticleConfig) (cam_pos cam_right cam_up : Vec3) (s : ℕ) :
    ParticlePool × ParticleConfig × ℕ :=
  let p1 := pool.resize config.max_particles
  let (p2, config', s2) := burstStep p1 origin config s
  let (p3, s3) := continuousStep p2 dt origin config' s2
  let p4 := p3.simulate dt config'.gravity_modifier config'.damping
  let p5 := p4.sort_back_to_front cam_pos
  (p5.build_billboards config' cam_right cam_up, config', s3)

/-! ## animation.rs: keyframe search (generic over an ordered field, so
that it can be instantiated at `ℚ` for computation and at `ℝ` inside the
scene tick). -/

/-- The binary-search loop of `find_keyframe_index` (animation.rs):
`while lo < hi - 1 { mid = (lo+hi)/2; if times[mid] <= time { lo = mid }
else { hi = mid } }`.  All indexing is in range at every use site (`lo`,
`hi`, `mid` stay inside `[0, times.len())`), so `getD` is faithful. -/
def findLoop {α : Type} [LinearOrderedField α] (times : List α) (time : α)
    (lo hi : ℕ) : ℕ × ℕ :=
  if lo < hi - 1 then
    let mid := (lo + hi) / 2
    if times.getD mid 0 ≤ time then findLoop times time mid hi
    else findLoop times time lo mid
  else (lo, hi)
termination_by hi - lo
decreasing_by
  all_goals omega

/-- `find_keyframe_index` (animation.rs): binary search for the keyframe
interval containing `time`; returns `(index0, index1, factor)` or `none`
for an empty sequence.  The f32 literal `1e-8` is modelled by the exact
rational it denotes. -/
def find_keyframe_index {α : Type} [LinearOrderedField α]
    (times : List α) (time : α) : Option (ℕ × ℕ × α) :=
  if times.isEmpty then none
  else if times.length = 1 then some (0, 0, 0)
  else if time ≤ times.getD 0 0 then some (0, 0, 0)
  else if times.getD (times.length - 1) 0 ≤ time then
    some (times.length - 1, times.length - 1, 0)
  else
    let r := findLoop times time 0 (times.length - 1)
    let t0 := times.getD r.1 0
    let t1 := times.getD r.2 0
    let factor := if |t1 - t0| < 1 / 100000000 then 0 else (time - t0) / (t1 - t0)
    some (r.1, r.2, factor)

noncomputable section

/-! ## animation.rs: vectors, quaternions, slerp (over ℝ) -/

/-- glam `DVec3`, modelled over ℝ. -/
structure Vec3R where
  x : ℝ
  y : ℝ
  z : ℝ

/-- glam `DQuat` (components `x y z w`), modelled over ℝ. -/
structure QuatR where
  x : ℝ
  y : ℝ
  z : ℝ
  w : ℝ

/-- Squared 4-norm of a quaternion. -/
def QuatR.normSq (q : QuatR) : ℝ := q.x * q.x + q.y * q.y + q.z * q.z + q.w * q.w

/-- 4-norm (glam `DQuat::length`). -/
def QuatR.norm (q : QuatR) : ℝ := Real.sqrt q.normSq

/-- glam `DQuat::normalize`: divide all components by the length. -/
def QuatR.normalize (q : QuatR) : QuatR :=
  ⟨q.x / q.norm, q.y / q.norm, q.z / q.norm, q.w / q.norm⟩

/-- `lerp_vec3` (animation.rs): `a + (b - a) * t`. -/
def lerp_vec3 (a b : Vec3R) (t : ℝ) : Vec3R :=
  ⟨a.x + (b.x - a.x) * t, a.y + (b.y - a.y) * t, a.z + (b.z - a.z) * t⟩

/-- `slerp_quat` (animation.rs): shortest-path spherical interpolation
with a normalized-linear fallback when the quaternions are nearly
identical (dot > 0.9995). -/
def slerp_quat (a b : QuatR) (t : ℝ) : QuatR :=
  let dot0 := a.x * b.x + a.y * b.y + a.z * b.z + a.w * b.w
  let dot := if dot0 < 0 then -dot0 else dot0
  let b' := if dot0 < 0 then QuatR.mk (-b.x) (-b.y) (-b.z) (-b.w) else b
  if 0.9995 < dot then
    (QuatR.mk (a.x + (b'.x - a.x) * t) (a.y + (b'.y - a.y) * t)
      (a.z + (b'.z - a.z) * t) (a.w + (b'.w - a.w) * t)).normalize
  else
    let theta := Real.arccos dot
    let sin_theta := Real.sin theta
    let w0 := Real.sin ((1 - t) * theta) / sin_theta
    let w1 := Real.sin (t * theta) / sin_theta
    QuatR.mk (a.x * w0 + b'.x * w1) (a.y * w0 + b'.y * w1)
      (a.z * w0 + b'.z * w1) (a.w * w0 + b'.w * w1)

/-- `get_vec3` (animation.rs): read three consecutive doubles.  The Rust
code indexes the slice unchecked, so a short buffer is a panic
(`none`). -/
def get_vec3 (values : List ℝ) (index : ℕ) : Option Vec3R := do
  let a ← values.get? (index * 3)
  let b ← values.get? (index * 3 + 1)
  let c ← values.get? (index * 3 + 2)
  pure ⟨a, b, c⟩

/-- `get_quat` (animation.rs): ORSB stores `w, x, y, z`;
`DQuat::from_xyzw(values[i+1], values[i+2], values[i+3], values[i])`.
Unchecked indexing: a short buffer is a panic (`none`). -/
def get_quat (values : List ℝ) (index : ℕ) : Option QuatR := do
  let w ← values.get? (index * 4)
  let x ← values.get? (index * 4 + 1)
  let y ← values.get? (index * 4 + 2)
  let z ← values.get? (index * 4 + 3)
  pure ⟨x, y, z, w⟩

/-! ## scene.rs: the runtime scene data model (the fields the tick
touches; meshes, materials, textures, lights and cameras are never read
or written by the three tick stages and are omitted). -/

/-- `TargetProperty` (scene_format). -/
inductive TargetProperty where
  | Position
  | Rotation
  | Scale

/-- `InterpolationMode` (scene_format). -/
inductive InterpolationMode where
  | Step
  | Linear
  | CubicSpline

/-- 4×4 single-precision matrix (glam `Mat4`), modelled exactly. -/
abbrev Mat4 := Matrix (Fin 4) (Fin 4) ℝ

/-- `TransformState` (scene.rs). -/
structure TransformState where
  position : Vec3R
  rotation : QuatR
  scale : Vec3R
  dirty : Bool

/-- `Entity` (scene.rs). -/
structure Entity where
  id : ℕ
  parent_index : Option ℕ
  transform : TransformState
  world_transform : Mat4
  mesh_index : Option ℕ
  material_index : Option ℕ

/-- `AnimationChannel` (scene.rs). -/
structure AnimationChannel where
  target_entity_index : ℕ
  target_property : TargetProperty
  interpolation : InterpolationMode
  times : List ℝ
  values : List ℝ

/-- `AnimationClip` (scene.rs). -/
structure AnimationClip where
  name : String
  duration : ℝ
  channels : List AnimationChannel

/-- `AnimationState` (scene.rs). -/
structure AnimationState where
  clips : List AnimationClip
  active_clip : ℤ
  current_time : ℝ
  playing : Bool
  looping : Bool
  speed : ℝ

/-- `SkeletonData` (scene.rs). -/
structure SkeletonData where
  entity_index : ℕ
  bone_entity_indices : List ℕ
  inverse_bind_matrices : List Mat4
  bone_matrices : List Mat4

/-- `LoadedScene` (scene.rs), restricted to the fields the tick reads or
writes. -/
structure LoadedScene where
  entities : List Entity
  animations : List AnimationState
  skeletons : List SkeletonData

/-! ## animation.rs: `update_animations` -/

/-- Truncation toward zero, as Rust float-to-integer truncation. -/
def truncR (x : ℝ) : ℤ := if 0 ≤ x then ⌊x⌋ else ⌈x⌉

/-- Rust `%` on floats: `a - b * trunc(a / b)` (sign of the dividend). -/
def fmod (a b : ℝ) : ℝ := a - b * (truncR (a / b) : ℝ)

/-- The clock-advance part of the per-state body of `update_animations`
(animation.rs): `current_time += dt * speed`, then wrap (looping) or
clamp-and-stop at the clip duration. -/
def advanceTime (st : AnimationState) (dt duration : ℝ) : AnimationState :=
  let t1 := st.current_time + dt * st.speed
  if duration < t1 then
    if st.looping then { st with current_time := fmod t1 duration }
    else { st with current_time := duration, playing := false }
  else { st with current_time := t1 }

/-- Write an interpolated position into a (guarded in-range) entity and
mark it dirty. -/
def setPosition (entities : List Entity) (idx : ℕ) (v : Vec3R) : List Entity :=
  match entities.get? idx with
  | some e => entities.set idx
      { e with transform := { e.transform with position := v, dirty := true } }
  | none => entities

/-- Write an interpolated rotation into a (guarded in-range) entity and
mark it dirty. -/
def setRotation (entities : List Entity) (idx : ℕ) (q : QuatR) : List Entity :=
  match entities.get? idx with
  | some e => entities.set idx
      { e with transform := { e.transform with rotation := q, dirty := true } }
  | none => entities

/-- Write an interpolated scale into a (guarded in-range) entity and
mark it dirty. -/
def setScale (entities : List Entity) (idx : ℕ) (v : Vec3R) : List Entity :=
  match entities.get? idx with
  | some e => entities.set idx
      { e with transform := { e.transform with scale := v, dirty := true } }
  | none => entities

/-- One channel application of `update_animations` (animation.rs):
out-of-range target entity or empty keyframe list skips the channel;
both bounding keys are fetched (unchecked value-buffer indexing — `none`
is a panic), interpolated per mode, and written to the target
property. -/
def applyChannel (entities : List Entity) (time : ℝ) (ch : AnimationChannel) :
    Option (List Entity) :=
  if entities.length ≤ ch.target_entity_index then some entities
  else
    match find_keyframe_index ch.times time with
    | none => some entities
    | some (i0, i1, t) =>
      match ch.target_property with
      | .Position => do
        let v0 ← get_vec3 ch.values i0
        let v1 ← get_vec3 ch.values i1
        let interpolated := match ch.interpolation with
          | .Step => v0
          | .Linear | .CubicSpline => lerp_vec3 v0 v1 t
        pure (setPosition entities ch.target_entity_index interpolated)
      | .Rotation => do
        let q0 ← get_quat ch.values i0
        let q1 ← get_quat ch.values i1
        let interpolated := match ch.interpolation with
          | .Step => q0
          | .Linear | .CubicSpline => slerp_quat q0 q1 t
        pure (setRotation entities ch.target_entity_index interpolated)
      | .Scale => do
        let v0 ← get_vec3 ch.values i0
        let v1 ← get_vec3 ch.values i1
        let interpolated := match ch.interpolation with
          | .Step => v0
          | .Linear | .CubicSpline => lerp_vec3 v0 v1 t
        pure (setScale entities ch.target_entity_index interpolated)

/-- Apply every channel of a clip in order. -/
def applyChannels (entities : List Entity) (time : ℝ)
    (channels : List AnimationChannel) : Option (List Entity) :=
  channels.foldlM (fun es ch => applyChannel es time ch) entities

/-- Per-`AnimationState` body of `update_animations` (animation.rs):
skip non-playing states and invalid active-clip indices, advance the
clock, then apply the active clip's channels to the entities. -/
def processAnimState (dt : ℝ) (acc : List Entity × List AnimationState)
    (st : AnimationState) : Option (List Entity × List AnimationState) :=
  if !st.playing then some (acc.1, acc.2 ++ [st])
  else if st.active_clip < 0 then some (acc.1, acc.2 ++ [st])
  else
    match st.clips.get? st.active_clip.toNat with
    | none => some (acc.1, acc.2 ++ [st])
    | some clip =>
      let st1 := advanceTime st dt clip.duration
      do
        let es' ← applyChannels acc.1 st1.current_time clip.channels
        pure (es', acc.2 ++ [st1])

/-- `update_animations` (animation.rs). -/
def update_animations (scene : LoadedScene) (dt : ℝ) : Option LoadedScene := do
  let r ← scene.animations.foldlM (processAnimState dt) (scene.entities, [])
  pure { scene with entities := r.1, animations := r.2 }

/-! ## transform.rs: `compute_world_transforms` -/

/-- `compose_local_transform` (transform.rs): glam
`Mat4::from_scale_rotation_translation(scale, rotation, position)`, the
standard translation·rotation·scale matrix (column-major in glam; entry
`(i, j)` below is row `i` of column `j`). -/
def compose_local_transform (position : Vec3R) (rotation : QuatR)
    (scale : Vec3R) : Mat4 :=
  let x := rotation.x
  let y := rotation.y
  let z := rotation.z
  let w := rotation.w
  Matrix.of
    ![![(1 - 2 * (y * y + z * z)) * scale.x, 2 * (x * y - w * z) * scale.y,
        2 * (x * z + w * y) * scale.z, position.x],
      ![2 * (x * y + w * z) * scale.x, (1 - 2 * (x * x + z * z)) * scale.y,
        2 * (y * z - w * x) * scale.z, position.y],
      ![2 * (x * z - w * y) * scale.x, 2 * (y * z + w * x) * scale.y,
        (1 - 2 * (x * x + y * y)) * scale.z, position.z],
      ![0, 0, 0, 1]]

/-- One iteration of the entity loop of `compute_world_transforms`
(transform.rs): compose the local matrix of entity `i`, pre-multiply the
parent's current world matrix when the parent index is in range, store
the world matrix and clear the dirty flag. -/
def computeStep (es : List Entity) (i : ℕ) : List Entity :=
  match es.get? i with
  | none => es
  | some e =>
    let localM := compose_local_transform e.transform.position
      e.transform.rotation e.transform.scale
    let world := match e.parent_index with
      | some p =>
        match es.get? p with
        | some pe => pe.world_transform * localM
        | none => localM
      | none => localM
    es.set i { e with world_transform := world,
                      transform := { e.transform with dirty := false } }

/-- `compute_world_transforms` (transform.rs): a single forward pass over
the entity array. -/
def compute_world_transforms (es : List Entity) : List Entity :=
  (List.range es.length).foldl computeStep es

/-! ## skinning.rs: `update_skinned_meshes` -/

/-- `const MAX_BONES: usize = 128`. -/
def MAX_BONES : ℕ := 128

/-- Per-skeleton body of `update_skinned_meshes` (skinning.rs): skip the
skeleton when its owning entity index is out of range; otherwise resize
the bone-matrix buffer to `min(bone_count, MAX_BONES)` and fill it.  A
bone entity index out of range writes the identity; the inverse-bind
access is unchecked in the source (`none` is a panic). -/
def processSkeleton (entities : List Entity) (skel : SkeletonData) :
    Option SkeletonData :=
  match entities.get? skel.entity_index with
  | none => some skel
  | some e =>
    let inv_mesh_world := e.world_transform⁻¹
    let bone_count := min skel.bone_entity_indices.length MAX_BONES
    let init := listResize skel.bone_matrices bone_count (1 : Mat4)
    do
      let bm ← (List.range bone_count).foldlM
        (fun (bm : List Mat4) i =>
          let bone_entity_idx := skel.bone_entity_indices.getD i 0
          match entities.get? bone_entity_idx with
          | none => some (bm.set i (1 : Mat4))
          | some be => do
            let inv_bind ← skel.inverse_bind_matrices.get? i
            pure (bm.set i (inv_mesh_world * be.world_transform * inv_bind)))
        init
      pure { skel with bone_matrices := bm }

/-- `update_skinned_meshes` (skinning.rs). -/
def update_skinned_meshes (scene : LoadedScene) : Option LoadedScene := do
  let skels ← scene.skeletons.mapM (processSkeleton scene.entities)
  pure { scene with skeletons := skels }

/-- One full frame tick of the scene pipeline, in the order of
`app.rs`: `update_animations`, `compute_world_transforms`,
`update_skinned_meshes`.  (`ParticlePool.update` runs independently per
emitter and is total in this embedding.) -/
def tick (scene : LoadedScene) (dt : ℝ) : Option LoadedScene := do
  let s1 ← update_animations scene dt
  let s2 := { s1 with entities := compute_world_transforms s1.entities }
  update_skinned_meshes s2

/-! ## math.rs (openreality-gpu-shared): cascade splits -/

/-- `compute_cascade_splits` (math.rs): PSSM split distances; `powf` is
real exponentiation. -/
def compute_cascade_splits (near far : ℝ) (num_cascades : ℕ) (lambda : ℝ) :
    List ℝ :=
  near :: (List.range num_cascades).map (fun i =>
    let p := (((i + 1 : ℕ) : ℝ)) / (num_cascades : ℝ)
    let c_log := near * (far / near) ^ p
    let c_linear := near + (far - near) * p
    lambda * c_log + (1 - lambda) * c_linear)

end

/-! # Helper lemmas and claim theorems -/

/-- Invariant of the binary-search loop: starting from a bracketing pair
`T[lo] ≤ t < T[hi]` with `lo < hi`, the loop returns adjacent indices
that still bracket `t`. -/
lemma findLoop_spec {α : Type} [LinearOrderedField α] (T : List α) (t : α) :
    ∀ n lo hi, hi - lo ≤ n → lo < hi → T.getD lo 0 ≤ t → t < T.getD hi 0 →
      (findLoop T t lo hi).2 = (findLoop T t lo hi).1 + 1 ∧
      lo ≤ (findLoop T t lo hi).1 ∧ (findLoop T t lo hi).2 ≤ hi ∧
      T.getD (findLoop T t lo hi).1 0 ≤ t ∧ t < T.getD (findLoop T t lo hi).2 0 := by
  intro n
  induction n with
  | zero => intro lo hi hb hlt _ _; omega
  | succ n ih =>
    intro lo hi hb hlt h0 h1
    rw [findLoop]
    by_cases hc : lo < hi - 1
    · simp only [if_pos hc]
      by_cases hm : T.getD ((lo + hi) / 2) 0 ≤ t
      · simp only [if_pos hm]
        have := ih ((lo + hi) / 2) hi (by omega) (by omega) hm h1
        exact ⟨this.1, by omega, this.2.2.1, this.2.2.2⟩
      · simp only [if_neg hm]
        push_neg at hm
        have := ih lo ((lo + hi) / 2) (by omega) (by omega) h0 hm
        exact ⟨this.1, this.2.1, by omega, this.2.2.2⟩
    · simp only [if_neg hc]
      exact ⟨by omega, by omega, by omega, h0, h1⟩

/-- **C2** (amended): for a strictly increasing time sequence `T`,
`find_keyframe_index` returns `none` exactly on the empty sequence;
otherwise `(i0, i1, f)` with `i0 ≤ i1 < |T|` and `f ∈ [0, 1]`; a single
key, or `t` at/before the first or at/after the last time, clamps both
indices to the endpoint with factor 0; strictly inside, `i1 = i0 + 1`
with `T[i0] ≤ t < T[i1]`, and `f` is the normalized position inside the
interval when the interval is at least `1e-8` wide, but `0` when the
interval is narrower than `1e-8` (this last case is where the original
claim fails: the code's degenerate-interval epsilon test also zeroes the
factor for strictly increasing times that are very close together). -/
theorem c2_find_keyframe_index_spec {α : Type} [LinearOrderedField α]
    (T : List α) (t : α) (hT : T.Pairwise (· < ·)) :
    (find_keyframe_index T t = none ↔ T = []) ∧
    (T ≠ [] → ∃ i0 i1 f, find_keyframe_index T t = some (i0, i1, f) ∧
      i0 ≤ i1 ∧ i1 < T.length ∧ 0 ≤ f ∧ f ≤ 1 ∧
      (T.length = 1 → (i0, i1, f) = (0, 0, 0)) ∧
      (t ≤ T.getD 0 0 → (i0, i1, f) = (0, 0, 0)) ∧
      (1 < T.length → T.getD (T.length - 1) 0 ≤ t →
        (i0, i1, f) = (T.length - 1, T.length - 1, 0)) ∧
      (T.getD 0 0 < t → t < T.getD (T.length - 1) 0 →
        i1 = i0 + 1 ∧ T.getD i0 0 ≤ t ∧ t < T.getD i1 0 ∧
        (1 / 100000000 ≤ T.getD i1 0 - T.getD i0 0 →
          f = (t - T.getD i0 0) / (T.getD i1 0 - T.getD i0 0)) ∧
        (T.getD i1 0 - T.getD i0 0 < 1 / 100000000 → f = 0))) := by
  have hmono : ∀ i j, i < j → j < T.length → T.getD i 0 < T.getD j 0 := by
    intro i j hij hj
    rw [List.getD_eq_getElem _ _ (by omega), List.getD_eq_getElem _ _ hj]
    exact List.pairwise_iff_getElem.mp hT i j (by omega) hj hij
  rcases eq_or_ne T [] with hE | hE
  · subst hE
    simp [find_keyframe_index]
  · have hne : ¬ T.isEmpty := by simpa [List.isEmpty_iff] using hE
    have hpos : 0 < T.length := List.length_pos.mpr hE
    constructor
    · simp only [find_keyframe_index, if_neg hne]
      constructor
      · intro h
        split_ifs at h
      · intro h; exact absurd h hE
    intro _
    by_cases h1 : T.length = 1
    · refine ⟨0, 0, 0, ?_, le_refl _, by omega, le_refl _, zero_le_one, ?_, ?_, ?_, ?_⟩
      · simp [find_keyframe_index, hne, h1]
      · intro; rfl
      · intro; rfl
      · intro h; omega
      · intro ha hb
        have h0 : T.length - 1 = 0 := by omega
        rw [h0] at hb
        exact absurd (lt_trans ha hb) (lt_irrefl _)
    · have hlen2 : 2 ≤ T.length := by omega
      by_cases h2 : t ≤ T.getD 0 0
      · refine ⟨0, 0, 0, ?_, le_refl _, by omega, le_refl _, zero_le_one, ?_, ?_, ?_, ?_⟩
        · simp only [find_keyframe_index]
          rw [if_neg hne, if_neg h1, if_pos h2]
        · intro h; omega
        · intro; rfl
        · intro _ hlast
          exfalso
          have := hmono 0 (T.length - 1) (by omega) (by omega)
          linarith
        · intro ha _
          exact absurd ha (not_lt.mpr h2)
      · by_cases h3 : T.getD (T.length - 1) 0 ≤ t
        · refine ⟨T.length - 1, T.length - 1, 0, ?_, le_refl _, by omega, le_refl _,
            zero_le_one, ?_, ?_, ?_, ?_⟩
          · simp only [find_keyframe_index]
            rw [if_neg hne, if_neg h1, if_neg h2, if_pos h3]
          · intro h; omega
          · intro h; exact absurd h h2
          · intro _ _; rfl
          · intro _ hb
            exact absurd hb (not_lt.mpr h3)
        · push_neg at h2 h3
          have hloop := findLoop_spec T t T.length 0 (T.length - 1) (by omega)
            (by omega) (le_of_lt h2) h3
          set r := findLoop T t 0 (T.length - 1) with hr
          obtain ⟨hsucc, hlo, hhi, hle, hlt⟩ := hloop
          have hi1len : r.2 < T.length := by omega
          have ht01 : T.getD r.1 0 < T.getD r.2 0 := hmono r.1 r.2 (by omega) hi1len
          have heq : find_keyframe_index T t =
              some (r.1, r.2,
                if |T.getD r.2 0 - T.getD r.1 0| < 1 / 100000000 then 0
                else (t - T.getD r.1 0) / (T.getD r.2 0 - T.getD r.1 0)) := by
            simp only [find_keyframe_index, if_neg hne, if_neg h1,
              if_neg (not_le.mpr h2), if_neg (not_le.mpr h3)]
          have habs : |T.getD r.2 0 - T.getD r.1 0| = T.getD r.2 0 - T.getD r.1 0 :=
            abs_of_pos (by linarith)
          by_cases hnarrow : T.getD r.2 0 - T.getD r.1 0 < 1 / 100000000
          · refine ⟨r.1, r.2, 0, ?_, by omega, hi1len, le_refl _, zero_le_one,
              ?_, ?_, ?_, ?_⟩
            · rw [heq, habs, if_pos hnarrow]
            · intro h; omega
            · intro h; exact absurd h (not_le.mpr h2)
            · intro _ h; exact absurd h (not_le.mpr h3)
            · intro _ _
              exact ⟨hsucc, hle, hlt,
                fun hw => absurd hw (not_le.mpr hnarrow), fun _ => rfl⟩
          · push_neg at hnarrow
            have hdpos : 0 < T.getD r.2 0 - T.getD r.1 0 := by linarith
            have hf0 : 0 ≤ (t - T.getD r.1 0) / (T.getD r.2 0 - T.getD r.1 0) :=
              div_nonneg (by linarith) (le_of_lt hdpos)
            have hf1 : (t - T.getD r.1 0) / (T.getD r.2 0 - T.getD r.1 0) ≤ 1 := by
              rw [div_le_one hdpos]; linarith
            refine ⟨r.1, r.2, (t - T.getD r.1 0) / (T.getD r.2 0 - T.getD r.1 0),
              ?_, by omega, hi1len, hf0, hf1, ?_, ?_, ?_, ?_⟩
            · rw [heq, habs, if_neg (not_lt.mpr hnarrow)]
            · intro h; omega
            · intro h; exact absurd h (not_le.mpr h2)
            · intro _ h; exact absurd h (not_le.mpr h3)
            · intro _ _
              exact ⟨by omega, hle, hlt, fun _ => rfl,
                fun hw => absurd hw (not_lt.mpr hnarrow)⟩

/-- **C2, counterexample to the original claim**: `T = [0, 2⁻²⁸]` is
strictly increasing and `t = 2⁻²⁹` lies strictly between the two times,
so the original claim requires the factor to be the normalized position
`1/2`; the code returns factor `0` because the interval is narrower than
`1e-8`.  (Both times are exactly representable in `f32`.) -/
theorem c2_find_keyframe_index_counterexample :
    List.Pairwise (· < ·) [(0 : ℚ), 1 / 268435456] ∧
    (0 : ℚ) < 1 / 536870912 ∧ (1 / 536870912 : ℚ) < 1 / 268435456 ∧
    find_keyframe_index [(0 : ℚ), 1 / 268435456] (1 / 536870912) =
      some (0, 1, 0) ∧
    ((1 / 536870912 : ℚ) - 0) / (1 / 268435456 - 0) = 1 / 2 ∧ (0 : ℚ) ≠ 1 / 2 := by
  refine ⟨?_, by norm_num, by norm_num, ?_, by norm_num, by norm_num⟩
  · simp only [List.pairwise_cons, List.mem_singleton, List.not_mem_nil]
    norm_num
  rw [find_keyframe_index]
  norm_num
  rw [findLoop]
  norm_num [abs_of_pos]

/-- **C2, witness**: the amended theorem applied at `T = [0, 2]`,
`t = 1`. -/
theorem c2_find_keyframe_index_witness :
    List.Pairwise (· < ·) [(0 : ℚ), 2] ∧
    (find_keyframe_index [(0 : ℚ), 2] 1 = none ↔ [(0 : ℚ), 2] = []) := by
  have hp : List.Pairwise (· < ·) [(0 : ℚ), 2] := by
    simp only [List.pairwise_cons, List.mem_singleton, List.not_mem_nil]
    norm_num
  exact ⟨hp, (c2_find_keyframe_index_spec [(0 : ℚ), 2] 1 hp).1⟩

/-- **C9**: for `0 < near < far`, at least one cascade, and
`lambda ∈ [0, 1]`, `compute_cascade_splits` returns `num_cascades + 1`
values, starting exactly at `near`, ending exactly at `far`, strictly
monotonically increasing. -/
theorem c9_compute_cascade_splits_spec (near far : ℝ) (n : ℕ) (lambda : ℝ)
    (h0 : 0 < near) (hnf : near < far) (hn : 1 ≤ n)
    (hl0 : 0 ≤ lambda) (hl1 : lambda ≤ 1) :
    (compute_cascade_splits near far n lambda).length = n + 1 ∧
    (compute_cascade_splits near far n lambda).getD 0 0 = near ∧
    (compute_cascade_splits near far n lambda).getD n 0 = far ∧
    (compute_cascade_splits near far n lambda).Chain' (· < ·) := by
  have hb : 1 < far / near := (one_lt_div h0).mpr hnf
  have hnR : (0 : ℝ) < (n : ℝ) := by exact_mod_cast hn
  set h : ℝ → ℝ := fun p =>
    lambda * (near * (far / near) ^ p) + (1 - lambda) * (near + (far - near) * p)
    with hh
  have hmono : ∀ p q : ℝ, p < q → h p < h q := by
    intro p q hpq
    have hlog : near * (far / near) ^ p < near * (far / near) ^ q :=
      mul_lt_mul_of_pos_left ((Real.rpow_lt_rpow_left_iff hb).mpr hpq) h0
    have hlin : near + (far - near) * p < near + (far - near) * q := by
      have := mul_lt_mul_of_pos_left hpq (by linarith : (0 : ℝ) < far - near)
      linarith
    rcases eq_or_lt_of_le hl0 with hz | hpos
    · simp only [hh, ← hz]
      ring_nf
      nlinarith
    · have t1 : lambda * (near * (far / near) ^ p) < lambda * (near * (far / near) ^ q) :=
        mul_lt_mul_of_pos_left hlog hpos
      have t2 : (1 - lambda) * (near + (far - near) * p) ≤
          (1 - lambda) * (near + (far - near) * q) :=
        mul_le_mul_of_nonneg_left (le_of_lt hlin) (by linarith)
      simp only [hh]
      linarith
  have hlen : (compute_cascade_splits near far n lambda).length = n + 1 := by
    simp [compute_cascade_splits]
  have hget : ∀ (i : ℕ) (hi : i < n),
      (compute_cascade_splits near far n lambda).get
        ⟨i + 1, by rw [hlen]; omega⟩ = h (((i + 1 : ℕ) : ℝ) / (n : ℝ)) := by
    intro i hi
    simp [compute_cascade_splits, hh]
  have hget0 : (compute_cascade_splits near far n lambda).get ⟨0, by rw [hlen]; omega⟩
      = near := rfl
  have hnear : h 0 = near := by
    simp [hh, Real.rpow_zero]
    ring
  refine ⟨hlen, rfl, ?_, ?_⟩
  · obtain ⟨m, rfl⟩ : ∃ m, n = m + 1 := ⟨n - 1, by omega⟩
    have hD : (compute_cascade_splits near far (m + 1) lambda).getD (m + 1) 0 =
        (compute_cascade_splits near far (m + 1) lambda).get ⟨m + 1, by rw [hlen]; omega⟩ := by
      rw [List.getD_eq_getElem _ _ (by rw [hlen]; omega)]
      simp [List.get_eq_getElem]
    rw [hD, hget m (by omega)]
    have hp1 : (((m + 1 : ℕ) : ℝ)) / ((m + 1 : ℕ) : ℝ) = 1 := by
      apply div_self
      exact_mod_cast Nat.succ_ne_zero m
    rw [hp1]
    simp only [hh, Real.rpow_one]
    field_simp
    ring
  · rw [List.chain'_iff_get]
    intro i hi
    rw [hlen] at hi
    simp only [List.get_eq_getElem] at hi ⊢
    rcases Nat.eq_zero_or_pos i with rfl | hipos
    · have e0 : (compute_cascade_splits near far n lambda).get ⟨0, by rw [hlen]; omega⟩
          = near := hget0
      have e1 := hget 0 (by omega)
      simp only [List.get_eq_getElem] at e0 e1
      rw [e0, e1, ← hnear]
      exact hmono 0 _ (by positivity)
    · obtain ⟨j, rfl⟩ : ∃ j, i = j + 1 := ⟨i - 1, by omega⟩
      have e1 := hget j (by omega)
      have e2 := hget (j + 1) (by omega)
      simp only [List.get_eq_getElem] at e1 e2
      rw [e1, e2]
      apply hmono
      exact (div_lt_div_iff_of_pos_right hnR).mpr (by exact_mod_cast Nat.lt_succ_self (j + 1))


/-- **C9, witness**: the theorem applied at `near = 1`, `far = 2`,
one cascade, `lambda = 0`. -/
theorem c9_compute_cascade_splits_witness :
    ((0 : ℝ) < 1 ∧ (1 : ℝ) < 2 ∧ 1 ≤ 1 ∧ (0 : ℝ) ≤ 0 ∧ (0 : ℝ) ≤ 1) ∧
    ((compute_cascade_splits 1 2 1 0).length = 1 + 1 ∧
     (compute_cascade_splits 1 2 1 0).getD 0 0 = 1 ∧
     (compute_cascade_splits 1 2 1 0).getD 1 0 = 2 ∧
     (compute_cascade_splits 1 2 1 0).Chain' (· < ·)) :=
  ⟨⟨by norm_num, by norm_num, le_refl 1, le_refl 0, by norm_num⟩,
   c9_compute_cascade_splits_spec 1 2 1 0 (by norm_num) (by norm_num)
     (le_refl 1) (le_refl 0) (by norm_num)⟩

/-! ### C5: slerp produces unit quaternions -/

/-- Normalizing a quaternion of positive squared norm yields norm 1. -/
lemma QuatR.norm_normalize (q : QuatR) (h : 0 < q.normSq) : q.normalize.norm = 1 := by
  have hs : 0 < q.norm := Real.sqrt_pos.mpr h
  have hsq : q.norm * q.norm = q.normSq := Real.mul_self_sqrt (le_of_lt h)
  have hne : q.norm ≠ 0 := ne_of_gt hs
  have hnsq : q.normalize.normSq = 1 := by
    simp only [QuatR.normalize, QuatR.normSq, div_mul_div_comm, div_add_div_same]
    rw [show q.x * q.x + q.y * q.y + q.z * q.z + q.w * q.w = q.normSq from rfl,
      ← hsq, div_self (mul_ne_zero hne hne)]
  rw [QuatR.norm, hnsq, Real.sqrt_one]

lemma sin_sq_identity (A B : ℝ) :
    Real.sin A ^ 2 + 2 * Real.sin A * Real.sin B * Real.cos (A + B) +
      Real.sin B ^ 2 = Real.sin (A + B) ^ 2 := by
  rw [Real.cos_add, Real.sin_add]
  have pa := Real.sin_sq_add_cos_sq A
  have pb := Real.sin_sq_add_cos_sq B
  nlinarith [pa, pb]

lemma combo_norm (a c : QuatR) (w0 w1 d : ℝ) (ha : a.normSq = 1) (hc : c.normSq = 1)
    (hdot : a.x * c.x + a.y * c.y + a.z * c.z + a.w * c.w = d)
    (hcombo : w0 ^ 2 + 2 * w0 * w1 * d + w1 ^ 2 = 1) :
    (QuatR.mk (a.x * w0 + c.x * w1) (a.y * w0 + c.y * w1)
      (a.z * w0 + c.z * w1) (a.w * w0 + c.w * w1)).norm = 1 := by
  have hnsq : (QuatR.mk (a.x * w0 + c.x * w1) (a.y * w0 + c.y * w1)
      (a.z * w0 + c.z * w1) (a.w * w0 + c.w * w1)).normSq = 1 := by
    simp only [QuatR.normSq] at *
    linear_combination w0 ^ 2 * ha + w1 ^ 2 * hc + 2 * w0 * w1 * hdot + hcombo
  rw [QuatR.norm, hnsq, Real.sqrt_one]

lemma sin_weights (d t : ℝ) (hd0 : 0 ≤ d) (hd1 : d < 1) :
    (Real.sin ((1 - t) * Real.arccos d) / Real.sin (Real.arccos d)) ^ 2 +
      2 * (Real.sin ((1 - t) * Real.arccos d) / Real.sin (Real.arccos d)) *
        (Real.sin (t * Real.arccos d) / Real.sin (Real.arccos d)) * d +
      (Real.sin (t * Real.arccos d) / Real.sin (Real.arccos d)) ^ 2 = 1 := by
  set θ := Real.arccos d with hθ
  have hpos : 0 < θ := Real.arccos_pos.mpr hd1
  have hlt : θ < Real.pi := lt_of_le_of_lt (Real.arccos_le_pi_div_two.mpr hd0)
    (half_lt_self Real.pi_pos)
  have hsin : 0 < Real.sin θ := Real.sin_pos_of_pos_of_lt_pi hpos hlt
  have hcos : Real.cos θ = d := Real.cos_arccos (by linarith) (le_of_lt hd1)
  have hsum : (1 - t) * θ + t * θ = θ := by ring
  have hid := sin_sq_identity ((1 - t) * θ) (t * θ)
  rw [hsum, hcos] at hid
  have hs2 : Real.sin θ ^ 2 ≠ 0 := pow_ne_zero 2 (ne_of_gt hsin)
  have hsplit : (Real.sin ((1 - t) * θ) / Real.sin θ) ^ 2 +
      2 * (Real.sin ((1 - t) * θ) / Real.sin θ) *
        (Real.sin (t * θ) / Real.sin θ) * d +
      (Real.sin (t * θ) / Real.sin θ) ^ 2 =
      (Real.sin ((1 - t) * θ) ^ 2 + 2 * Real.sin ((1 - t) * θ) *
        Real.sin (t * θ) * d + Real.sin (t * θ) ^ 2) / Real.sin θ ^ 2 := by
    field_simp
    ring
  rw [hsplit, hid, div_self hs2]


/-- The near-identical linear-interpolation branch of `slerp_quat`
returns a unit quaternion. -/
lemma lerp_branch_norm (a c : QuatR) (t d : ℝ) (ha : a.normSq = 1) (hc : c.normSq = 1)
    (hdot : a.x * c.x + a.y * c.y + a.z * c.z + a.w * c.w = d)
    (hd : 0 < d) (ht0 : 0 ≤ t) (ht1 : t ≤ 1) :
    (QuatR.mk (a.x + (c.x - a.x) * t) (a.y + (c.y - a.y) * t)
      (a.z + (c.z - a.z) * t) (a.w + (c.w - a.w) * t)).normalize.norm = 1 := by
  apply QuatR.norm_normalize
  have hval : (QuatR.mk (a.x + (c.x - a.x) * t) (a.y + (c.y - a.y) * t)
      (a.z + (c.z - a.z) * t) (a.w + (c.w - a.w) * t)).normSq =
      (1 - t) ^ 2 + 2 * t * (1 - t) * d + t ^ 2 := by
    simp only [QuatR.normSq] at *
    linear_combination ((1 - t) ^ 2) * ha + (2 * t * (1 - t)) * hdot + (t ^ 2) * hc
  rw [hval]
  nlinarith [sq_nonneg (1 - 2 * t),
    mul_nonneg (mul_nonneg ht0 (by linarith : (0 : ℝ) ≤ 1 - t)) (le_of_lt hd)]

/-- The spherical branch of `slerp_quat` returns a unit quaternion. -/
lemma spherical_branch_norm (a c : QuatR) (t d : ℝ) (ha : a.normSq = 1)
    (hc : c.normSq = 1)
    (hdot : a.x * c.x + a.y * c.y + a.z * c.z + a.w * c.w = d)
    (hd0 : 0 ≤ d) (hd1 : d < 1) :
    (QuatR.mk
      (a.x * (Real.sin ((1 - t) * Real.arccos d) / Real.sin (Real.arccos d)) +
       c.x * (Real.sin (t * Real.arccos d) / Real.sin (Real.arccos d)))
      (a.y * (Real.sin ((1 - t) * Real.arccos d) / Real.sin (Real.arccos d)) +
       c.y * (Real.sin (t * Real.arccos d) / Real.sin (Real.arccos d)))
      (a.z * (Real.sin ((1 - t) * Real.arccos d) / Real.sin (Real.arccos d)) +
       c.z * (Real.sin (t * Real.arccos d) / Real.sin (Real.arccos d)))
      (a.w * (Real.sin ((1 - t) * Real.arccos d) / Real.sin (Real.arccos d)) +
       c.w * (Real.sin (t * Real.arccos d) / Real.sin (Real.arccos d)))).norm = 1 :=
  combo_norm a c _ _ d ha hc hdot (sin_weights d t hd0 hd1)


/-- **C5**: for unit quaternions `a`, `b` and any `t ∈ [0, 1]`,
`slerp_quat a b t` has unit norm, in all branches: the near-identical
linear fallback (explicitly normalized) and the shortest-path spherical
branch (with or without hemisphere negation). -/
theorem c5_slerp_quat_spec (a b : QuatR) (t : ℝ)
    (ha : a.normSq = 1) (hb : b.normSq = 1) (ht0 : 0 ≤ t) (ht1 : t ≤ 1) :
    (slerp_quat a b t).norm = 1 := by
  have hbneg : (QuatR.mk (-b.x) (-b.y) (-b.z) (-b.w)).normSq = 1 := by
    simp only [QuatR.normSq] at *
    linear_combination hb
  rw [slerp_quat]
  by_cases hneg : a.x * b.x + a.y * b.y + a.z * b.z + a.w * b.w < 0
  · simp only [if_pos hneg]
    by_cases hbig : (0.9995 : ℝ) < -(a.x * b.x + a.y * b.y + a.z * b.z + a.w * b.w)
    · simp only [if_pos hbig]
      exact lerp_branch_norm a (QuatR.mk (-b.x) (-b.y) (-b.z) (-b.w)) t
        (-(a.x * b.x + a.y * b.y + a.z * b.z + a.w * b.w))
        ha hbneg (by ring) (by linarith) ht0 ht1
    · simp only [if_neg hbig]
      exact spherical_branch_norm a (QuatR.mk (-b.x) (-b.y) (-b.z) (-b.w)) t
        (-(a.x * b.x + a.y * b.y + a.z * b.z + a.w * b.w)) ha hbneg (by ring)
        (by linarith) (by push_neg at hbig; linarith)
  · simp only [if_neg hneg]
    push_neg at hneg
    by_cases hbig : (0.9995 : ℝ) < a.x * b.x + a.y * b.y + a.z * b.z + a.w * b.w
    · simp only [if_pos hbig]
      exact lerp_branch_norm a b t (a.x * b.x + a.y * b.y + a.z * b.z + a.w * b.w)
        ha hb rfl (by linarith) ht0 ht1
    · simp only [if_neg hbig]
      exact spherical_branch_norm a b t
        (a.x * b.x + a.y * b.y + a.z * b.z + a.w * b.w) ha hb rfl hneg
        (by push_neg at hbig; linarith)


/-- **C5, witness**: the theorem applied at `a = b =` the identity
quaternion and `t = 1/2`. -/
theorem c5_slerp_quat_witness :
    (QuatR.mk 0 0 0 1).normSq = 1 ∧ (0 : ℝ) ≤ 1 / 2 ∧ (1 / 2 : ℝ) ≤ 1 ∧
    (slerp_quat (QuatR.mk 0 0 0 1) (QuatR.mk 0 0 0 1) (1 / 2)).norm = 1 := by
  have h1 : (QuatR.mk 0 0 0 1).normSq = 1 := by
    simp [QuatR.normSq]
  exact ⟨h1, by norm_num, by norm_num,
    c5_slerp_quat_spec (QuatR.mk 0 0 0 1) (QuatR.mk 0 0 0 1) (1 / 2) h1 h1
      (by norm_num) (by norm_num)⟩

/-! ### Particle-pool lemmas (emission, resize) -/

/-- `emit` walks past a live slot unchanged. -/
lemma emitGo_cons_alive (o : Vec3) (c : ParticleConfig) (p : Particle)
    (ps : List Particle) (s : ℕ) (hp : p.alive = true) :
    emitGo o c (p :: ps) s =
      (p :: (emitGo o c ps s).1, (emitGo o c ps s).2.1, (emitGo o c ps s).2.2) := by
  rcases h : emitGo o c ps s with ⟨ps', s', ok⟩
  simp [emitGo, hp, h]

/-- `emit` revives the first dead slot. -/
lemma emitGo_cons_dead (o : Vec3) (c : ParticleConfig) (p : Particle)
    (ps : List Particle) (s : ℕ) (hp : p.alive = false) :
    ∃ q s', emitGo o c (p :: ps) s = (q :: ps, s', true) ∧ q.alive = true := by
  simp only [emitGo, hp, Bool.not_false, if_true, rand_range, rand_f32]
  exact ⟨_, _, rfl, rfl⟩

/-- `emit` never changes the number of slots. -/
lemma emitGo_length (o : Vec3) (c : ParticleConfig) :
    ∀ (ps : List Particle) (s : ℕ), (emitGo o c ps s).1.length = ps.length := by
  intro ps
  induction ps with
  | nil => intro s; rfl
  | cons p ps ih =>
    intro s
    by_cases hp : p.alive
    · rw [emitGo_cons_alive o c p ps s hp]
      simp [ih s]
    · obtain ⟨q, s', heq, _⟩ := emitGo_cons_dead o c p ps s (by simpa using hp)
      rw [heq]
      simp

/-- On a full pool, `emit` changes nothing and reports failure. -/
lemma emitGo_full (o : Vec3) (c : ParticleConfig) :
    ∀ (ps : List Particle) (s : ℕ), (∀ p ∈ ps, p.alive) →
      emitGo o c ps s = (ps, s, false) := by
  intro ps
  induction ps with
  | nil => intro s _; rfl
  | cons p ps ih =>
    intro s hall
    rw [emitGo_cons_alive o c p ps s (hall p (by simp))]
    rw [ih s (fun q hq => hall q (by simp [hq]))]

/-- With a dead slot available, `emit` succeeds and raises the alive
count by exactly one. -/
lemma emitGo_succ (o : Vec3) (c : ParticleConfig) :
    ∀ (ps : List Particle) (s : ℕ), (∃ p ∈ ps, ¬ p.alive) →
      (emitGo o c ps s).2.2 = true ∧
      (emitGo o c ps s).1.countP (·.alive) = ps.countP (·.alive) + 1 := by
  intro ps
  induction ps with
  | nil => intro s h; simp at h
  | cons p ps ih =>
    intro s hex
    by_cases hp : p.alive
    · have hex' : ∃ q ∈ ps, ¬ q.alive := by
        rcases hex with ⟨q, hq, hqa⟩
        rcases List.mem_cons.mp hq with rfl | hmem
        · exact absurd hp hqa
        · exact ⟨q, hmem, hqa⟩
      rw [emitGo_cons_alive o c p ps s hp]
      have := ih s hex'
      simp [List.countP_cons, this.1, this.2, hp]
    · obtain ⟨q, s', heq, hqa⟩ := emitGo_cons_dead o c p ps s (by simpa using hp)
      rw [heq]
      simp [List.countP_cons, hqa, hp]

/-- The burst loop emits exactly one particle per iteration as long as
dead slots remain. -/
lemma burstLoop_spec (o : Vec3) (c : ParticleConfig) :
    ∀ (n : ℕ) (pool : ParticlePool) (s : ℕ),
      pool.particles.countP (·.alive) + n ≤ pool.particles.length →
      ((burstLoop o c n pool s).1.particles.countP (·.alive) =
        pool.particles.countP (·.alive) + n) ∧
      (burstLoop o c n pool s).1.particles.length = pool.particles.length := by
  intro n
  induction n with
  | zero => intro pool s _; exact ⟨rfl, rfl⟩
  | succ n ih =>
    intro pool s h
    have hdead : ∃ p ∈ pool.particles, ¬ p.alive := by
      by_contra hall
      push_neg at hall
      have : pool.particles.countP (·.alive) = pool.particles.length :=
        List.countP_eq_length.mpr (fun a ha => by simpa using hall a ha)
      omega
    have hsucc := emitGo_succ o c pool.particles s hdead
    have hlen := emitGo_length o c pool.particles s
    rw [burstLoop]
    simp only [ParticlePool.emit, hsucc.1, if_true]
    have := ih { pool with particles := (emitGo o c pool.particles s).1 }
      (emitGo o c pool.particles s).2.1 (by simp [hsucc.2, hlen]; omega)
    simp only at this
    rw [this.1, this.2, hsucc.2, hlen]
    omega

/-- `listResize` produces exactly the requested length. -/
lemma listResize_length {α : Type} (l : List α) (n : ℕ) (f : α) :
    (listResize l n f).length = n := by
  unfold listResize
  split
  · simp
    omega
  · simp
    omega

/-- Slots below both the old and the new capacity are untouched by
`listResize`. -/
lemma listResize_get? {α : Type} (l : List α) (n : ℕ) (f : α) (i : ℕ)
    (hi : i < l.length) (hn : i < n) :
    (listResize l n f).get? i = l.get? i := by
  unfold listResize
  split
  · exact List.get?_take hn
  · exact List.get?_append (by simpa using hi)

/-- The resize step keeps the particle array at exactly
`config.max_particles` slots. -/
lemma resize_particles_length (pool : ParticlePool) (max : ℕ) :
    (pool.resize max).particles.length = max := by
  unfold ParticlePool.resize
  split
  · exact listResize_length _ _ _
  · omega

/-- The resize step keeps the vertex buffer at `max * 6 * 9` floats, as
long as the pool satisfies the `ParticlePool::new` buffer invariant. -/
lemma resize_vertex_data_length (pool : ParticlePool) (max : ℕ)
    (hinv : pool.vertex_data.length = pool.particles.length * 6 * 9) :
    (pool.resize max).vertex_data.length = max * 6 * 9 := by
  unfold ParticlePool.resize
  split
  · exact listResize_length _ _ _
  · simp only [hinv]
    omega

/-- Resizing an all-dead pool yields an all-dead pool (new slots start
dead). -/
lemma resize_dead (pool : ParticlePool) (max : ℕ)
    (h : ∀ p ∈ pool.particles, p.alive = false) :
    ∀ p ∈ (pool.resize max).particles, p.alive = false := by
  intro p hp
  unfold ParticlePool.resize at hp
  split at hp
  · unfold listResize at hp
    split at hp
    · exact h p (List.mem_of_mem_take hp)
    · rcases List.mem_append.mp hp with hl | hr
      · exact h p hl
      · rw [(List.mem_replicate.mp hr).2]
        rfl
  · exact h p hp

/-- **C3** (amended): the resize step at the start of
`ParticlePool::update` sets the capacity to exactly
`config.max_particles`; every slot whose index is below both the old and
the new capacity keeps its particle (so no alive particle is lost unless
the array shrinks below its slot), and when the capacity does not
shrink, the number of alive particles is preserved exactly (new slots
start dead). -/
theorem c3_resize_spec (pool : ParticlePool) (max : ℕ) :
    (pool.resize max).particles.length = max ∧
    (∀ i, i < pool.particles.length → i < max →
      (pool.resize max).particles.get? i = pool.particles.get? i) ∧
    (pool.particles.length ≤ max →
      (pool.resize max).particles.countP (·.alive) =
        pool.particles.countP (·.alive)) := by
  refine ⟨resize_particles_length pool max, ?_, ?_⟩
  · intro i hi hn
    unfold ParticlePool.resize
    split
    · exact listResize_get? _ _ _ _ hi hn
    · rfl
  · intro hle
    unfold ParticlePool.resize
    split
    · unfold listResize
      rename_i hne
      rw [if_neg (by omega)]
      rw [List.countP_append]
      have : (List.replicate (max - pool.particles.length) deadParticle).countP
          (·.alive) = 0 :=
        List.countP_eq_zero.mpr (fun a ha => by
          rw [(List.mem_replicate.mp ha).2]; simp [deadParticle])
      omega
    · rfl

/-- **C3, counterexample to the original claim**: a pool with an alive
particle in slot 1 and `config.max_particles = 1`; the resize step
truncates the array and the alive particle is dropped (before any
lifetime expiry could kill it). -/
theorem c3_resize_counterexample :
    (ParticlePool.mk [deadParticle, { deadParticle with alive := true }]
      0 [] 0 0).particles.countP (·.alive) = 1 ∧
    ((ParticlePool.mk [deadParticle, { deadParticle with alive := true }]
      0 [] 0 0).resize 1).particles.countP (·.alive) = 0 := by
  constructor
  · rfl
  · rfl

/-- **C3, witness**: the amended theorem applied to a one-slot dead pool
grown to two slots. -/
theorem c3_resize_witness :
    ((ParticlePool.mk [deadParticle] 0 [] 0 0).resize 2).particles.length = 2 ∧
    ((ParticlePool.mk [deadParticle] 0 [] 0 0).resize 2).particles.get? 0 =
      (ParticlePool.mk [deadParticle] 0 [] 0 0).particles.get? 0 ∧
    ((ParticlePool.mk [deadParticle] 0 [] 0 0).resize 2).particles.countP
      (·.alive) =
      (ParticlePool.mk [deadParticle] 0 [] 0 0).particles.countP (·.alive) := by
  have h := c3_resize_spec (ParticlePool.mk [deadParticle] 0 [] 0 0) 2
  exact ⟨h.1, h.2.1 0 (by simp) (by omega), h.2.2 (by simp)⟩

/-- The acknowledged config of `ParticlePool::update` is the one produced
by the burst-emission step. -/
lemma update_config_eq (pool : ParticlePool) (dt : ℚ) (origin : Vec3)
    (config : ParticleConfig) (cam_pos cam_right cam_up : Vec3) (s : ℕ) :
    (pool.update dt origin config cam_pos cam_right cam_up s).2.1 =
      (burstStep (pool.resize config.max_particles) origin config s).2.1 := by
  rcases hb : burstStep (pool.resize config.max_particles) origin config s
    with ⟨p2, config', s2⟩
  rcases hc : continuousStep p2 dt origin config' s2 with ⟨p3, s3⟩
  simp [ParticlePool.update, hb, hc]

/-- **C4**: with `burst_count = N > 0`, an all-dead pool, and
`config.max_particles ≥ N` (the capacity after the resize step), the
burst-emission step of `ParticlePool::update` leaves exactly `N` alive
particles (before any lifetime decay), never exceeds the pool capacity,
and the same call resets `burst_count` to `0` so the burst is not
replayed. -/
theorem c4_burst_emission_spec (pool : ParticlePool) (dt : ℚ) (origin : Vec3)
    (config : ParticleConfig) (cam_pos cam_right cam_up : Vec3) (s : ℕ) (N : ℕ)
    (hbc : config.burst_count = (N : ℤ)) (hN : 0 < N)
    (hdead : ∀ p ∈ pool.particles, p.alive = false)
    (hcap : N ≤ config.max_particles) :
    ((burstStep (pool.resize config.max_particles) origin config s).1.particles.countP
      (·.alive) = N) ∧
    ((burstStep (pool.resize config.max_particles) origin config s).1.particles.countP
      (·.alive) ≤ config.max_particles) ∧
    ((burstStep (pool.resize config.max_particles) origin config s).1.particles.length
      = config.max_particles) ∧
    ((burstStep (pool.resize config.max_particles) origin config s).2.1.burst_count
      = 0) ∧
    ((pool.update dt origin config cam_pos cam_right cam_up s).2.1.burst_count = 0) := by
  set p1 := pool.resize config.max_particles with hp1
  have hlen1 : p1.particles.length = config.max_particles :=
    resize_particles_length pool config.max_particles
  have hdead1 : ∀ p ∈ p1.particles, p.alive = false :=
    resize_dead pool config.max_particles hdead
  have hcount1 : p1.particles.countP (·.alive) = 0 :=
    List.countP_eq_zero.mpr (fun a ha => by simp [hdead1 a ha])
  have hpos : 0 < config.burst_count := by
    rw [hbc]
    exact_mod_cast hN
  have htn : config.burst_count.toNat = N := by
    rw [hbc]
    exact Int.toNat_natCast N
  have hburst : burstStep p1 origin config s =
      ((burstLoop origin config config.burst_count.toNat p1 s).1,
       { config with burst_count := 0 },
       (burstLoop origin config config.burst_count.toNat p1 s).2) := by
    rw [burstStep, if_pos hpos]
  have hloop := burstLoop_spec origin config config.burst_count.toNat p1 s
    (by rw [htn, hcount1, hlen1]; omega)
  refine ⟨?_, ?_, ?_, ?_, ?_⟩
  · rw [hburst]
    simpa [hcount1, htn] using hloop.1
  · rw [hburst]
    show (burstLoop origin config config.burst_count.toNat
      p1 s).1.particles.countP (·.alive) ≤ config.max_particles
    exact le_trans (List.countP_le_length _) (le_of_eq (by rw [hloop.2, hlen1]))
  · rw [hburst]
    simpa [hlen1] using hloop.2
  · rw [hburst]
  · rw [update_config_eq, hburst]

/-- **C4, witness**: the theorem applied to a one-slot dead pool with a
burst of one particle. -/
theorem c4_burst_emission_witness :
    ((ParticleConfig.mk 1 0 1 0 0 ⟨0, 0, 0⟩ ⟨0, 0, 0⟩ 0 0 0 0 0 ⟨1, 1, 1⟩
        ⟨1, 1, 1⟩ 1 0 false).burst_count = ((1 : ℕ) : ℤ) ∧ 0 < 1 ∧
      (1 : ℕ) ≤ (ParticleConfig.mk 1 0 1 0 0 ⟨0, 0, 0⟩ ⟨0, 0, 0⟩ 0 0 0 0 0
        ⟨1, 1, 1⟩ ⟨1, 1, 1⟩ 1 0 false).max_particles) ∧
    (burstStep ((ParticlePool.mk [deadParticle] 0 [] 0 0).resize
        (ParticleConfig.mk 1 0 1 0 0 ⟨0, 0, 0⟩ ⟨0, 0, 0⟩ 0 0 0 0 0 ⟨1, 1, 1⟩
          ⟨1, 1, 1⟩ 1 0 false).max_particles) ⟨0, 0, 0⟩
        (ParticleConfig.mk 1 0 1 0 0 ⟨0, 0, 0⟩ ⟨0, 0, 0⟩ 0 0 0 0 0 ⟨1, 1, 1⟩
          ⟨1, 1, 1⟩ 1 0 false) 0).1.particles.countP (·.alive) = 1 ∧
    (burstStep ((ParticlePool.mk [deadParticle] 0 [] 0 0).resize
        (ParticleConfig.mk 1 0 1 0 0 ⟨0, 0, 0⟩ ⟨0, 0, 0⟩ 0 0 0 0 0 ⟨1, 1, 1⟩
          ⟨1, 1, 1⟩ 1 0 false).max_particles) ⟨0, 0, 0⟩
        (ParticleConfig.mk 1 0 1 0 0 ⟨0, 0, 0⟩ ⟨0, 0, 0⟩ 0 0 0 0 0 ⟨1, 1, 1⟩
          ⟨1, 1, 1⟩ 1 0 false) 0).2.1.burst_count = 0 := by
  have h := c4_burst_emission_spec (ParticlePool.mk [deadParticle] 0 [] 0 0) 0
    ⟨0, 0, 0⟩ (ParticleConfig.mk 1 0 1 0 0 ⟨0, 0, 0⟩ ⟨0, 0, 0⟩ 0 0 0 0 0
      ⟨1, 1, 1⟩ ⟨1, 1, 1⟩ 1 0 false) ⟨0, 0, 0⟩ ⟨0, 0, 0⟩ ⟨0, 0, 0⟩ 0 1
    rfl (by norm_num) (by intro p hp; simp at hp; rw [hp]; rfl) (le_refl 1)
  exact ⟨⟨rfl, by norm_num, le_refl 1⟩, h.1, h.2.2.2.1⟩

/-! ### Depth-sort and billboard lemmas -/

/-- Setting one slot changes `countP` by swapping the old element's
contribution for the new one's. -/
lemma countP_set {α : Type} (p : α → Bool) :
    ∀ (l : List α) (i : ℕ) (x : α), i < l.length →
      (l.set i x).countP p + (if p (l.getD i x) then 1 else 0) =
        l.countP p + (if p x then 1 else 0) := by
  intro l
  induction l with
  | nil => intro i x h; simp at h
  | cons a l ih =>
    intro i x h
    cases i with
    | zero =>
      simp [List.countP_cons]
      omega
    | succ i =>
      have := ih i x (by simpa using h)
      simp only [List.set, List.countP_cons, List.getD_cons_succ]
      omega

lemma listSwap_length {α : Type} (l : List α) (i j : ℕ) :
    (listSwap l i j).length = l.length := by
  unfold listSwap
  rcases h1 : l.get? i with _ | a <;> rcases h2 : l.get? j with _ | b <;> simp

lemma listSwap_countP {α : Type} (p : α → Bool) (l : List α) (i j : ℕ) :
    (listSwap l i j).countP p = l.countP p := by
  unfold listSwap
  rcases h1 : l.get? i with _ | a
  · rfl
  rcases h2 : l.get? j with _ | b
  · rfl
  rw [List.get?_eq_getElem?] at h1 h2
  have hi : i < l.length := by
    by_contra hc
    rw [List.getElem?_eq_none (by omega)] at h1
    exact Option.noConfusion h1
  have hj : j < l.length := by
    by_contra hc
    rw [List.getElem?_eq_none (by omega)] at h2
    exact Option.noConfusion h2
  have hli : l[i] = a := by
    have := List.getElem?_eq_getElem hi
    rw [h1] at this
    exact (Option.some_inj.mp this).symm
  have hlj : l[j] = b := by
    have := List.getElem?_eq_getElem hj
    rw [h2] at this
    exact (Option.some_inj.mp this).symm
  show ((l.set i b).set j a).countP p = l.countP p
  by_cases hij : i = j
  · subst hij
    have hab : a = b := by rw [← hli, ← hlj]
    subst hab
    rw [List.set_set]
    have e := countP_set p l i a hi
    rw [List.getD_eq_getElem _ _ hi, hli] at e
    omega
  · have e1 := countP_set p l i b hi
    rw [List.getD_eq_getElem _ _ hi, hli] at e1
    have e2 := countP_set p (l.set i b) j a (by simpa using hj)
    have hgd : (l.set i b).getD j a = b := by
      rw [List.getD_eq_getElem _ _ (by simpa using hj)]
      rw [List.getElem_set_ne (by omega)]
      exact hlj
    rw [hgd] at e2
    omega


/-- The alive-to-front partition loop preserves length and alive count
(each step is a swap or the identity). -/
lemma partitionGo_preserve (idxs : List ℕ) :
    ∀ (l : List Particle) (w : ℕ),
      ((idxs.foldl (fun acc i =>
        if (acc.1.get? i).any (·.alive) then
          (if i ≠ acc.2 then listSwap acc.1 i acc.2 else acc.1, acc.2 + 1)
        else acc) (l, w)).1.length = l.length) ∧
      ((idxs.foldl (fun acc i =>
        if (acc.1.get? i).any (·.alive) then
          (if i ≠ acc.2 then listSwap acc.1 i acc.2 else acc.1, acc.2 + 1)
        else acc) (l, w)).1.countP (·.alive) = l.countP (·.alive)) := by
  induction idxs with
  | nil => intro l w; exact ⟨rfl, rfl⟩
  | cons i idxs ih =>
    intro l w
    simp only [List.foldl_cons]
    by_cases h : (l.get? i).any (·.alive)
    · rw [if_pos h]
      by_cases hiw : i ≠ w
      · rw [if_pos hiw]
        have := ih (listSwap l i w) (w + 1)
        rw [listSwap_length] at this
        rw [listSwap_countP (·.alive) l i w] at this
        exact this
      · rw [if_neg hiw]
        exact ih l (w + 1)
    · rw [if_neg h]
      exact ih l w

/-- `sort_back_to_front` permutes the particle array: length and alive
count are preserved, and no other pool field changes. -/
lemma sort_back_to_front_spec (pool : ParticlePool) (cam_pos : Vec3) :
    (pool.sort_back_to_front cam_pos).particles.length =
      pool.particles.length ∧
    (pool.sort_back_to_front cam_pos).particles.countP (·.alive) =
      pool.particles.countP (·.alive) ∧
    (pool.sort_back_to_front cam_pos).vertex_data = pool.vertex_data ∧
    (pool.sort_back_to_front cam_pos).vertex_count = pool.vertex_count ∧
    (pool.sort_back_to_front cam_pos).alive_count = pool.alive_count := by
  have hpart := partitionGo_preserve (List.range pool.particles.length)
    pool.particles 0
  rcases hp : partitionAlive pool.particles with ⟨ps, write⟩
  have hps : ps = (partitionAlive pool.particles).1 := by rw [hp]
  have hlen : ps.length = pool.particles.length := by
    rw [hps]
    exact hpart.1
  have hcount : ps.countP (·.alive) = pool.particles.countP (·.alive) := by
    rw [hps]
    exact hpart.2
  have hsorted : ((ps.take write).mergeSort (fartherFirst cam_pos) ++
      ps.drop write).length = ps.length := by
    rw [List.length_append, (List.mergeSort_perm _ _).length_eq]
    simp
    omega
  have hsortedc : ((ps.take write).mergeSort (fartherFirst cam_pos) ++
      ps.drop write).countP (·.alive) = ps.countP (·.alive) := by
    rw [List.countP_append, (List.mergeSort_perm _ _).countP_eq]
    rw [← List.countP_append, List.take_append_drop]
  constructor
  · simp only [ParticlePool.sort_back_to_front, hp]
    rw [hsorted, hlen]
  constructor
  · simp only [ParticlePool.sort_back_to_front, hp]
    rw [hsortedc, hcount]
  · simp [ParticlePool.sort_back_to_front, hp]

/-- The burst loop only touches the particle slots (and preserves their
number) and the RNG state. -/
lemma burstLoop_fields (o : Vec3) (c : ParticleConfig) :
    ∀ (n : ℕ) (pool : ParticlePool) (s : ℕ),
      (burstLoop o c n pool s).1.particles.length = pool.particles.length ∧
      (burstLoop o c n pool s).1.vertex_data = pool.vertex_data ∧
      (burstLoop o c n pool s).1.vertex_count = pool.vertex_count ∧
      (burstLoop o c n pool s).1.alive_count = pool.alive_count ∧
      (burstLoop o c n pool s).1.emit_accumulator = pool.emit_accumulator := by
  intro n
  induction n with
  | zero => intro pool s; exact ⟨rfl, rfl, rfl, rfl, rfl⟩
  | succ n ih =>
    intro pool s
    rw [burstLoop]
    simp only [ParticlePool.emit]
    by_cases hok : (emitGo o c pool.particles s).2.2 = true
    · rw [if_pos hok]
      have := ih { pool with particles := (emitGo o c pool.particles s).1 }
        (emitGo o c pool.particles s).2.1
      simpa [emitGo_length] using this
    · rw [if_neg hok]
      exact ⟨emitGo_length o c pool.particles s, rfl, rfl, rfl, rfl⟩

/-- The continuous-emission loop only touches the particle slots, the
accumulator and the RNG state. -/
lemma continuousLoop_fields (o : Vec3) (c : ParticleConfig) :
    ∀ (m : ℕ) (pool : ParticlePool) (s : ℕ),
      (⌈pool.emit_accumulator⌉).toNat ≤ m →
      (continuousLoop o c pool s).1.particles.length = pool.particles.length ∧
      (continuousLoop o c pool s).1.vertex_data = pool.vertex_data ∧
      (continuousLoop o c pool s).1.vertex_count = pool.vertex_count ∧
      (continuousLoop o c pool s).1.alive_count = pool.alive_count := by
  intro m
  induction m with
  | zero =>
    intro pool s hm
    rw [continuousLoop]
    have : ¬ 1 ≤ pool.emit_accumulator := by
      intro hc
      have h1 : (1 : ℤ) ≤ ⌈pool.emit_accumulator⌉ := by
        have := Int.le_ceil pool.emit_accumulator
        have : (1 : ℚ) ≤ (⌈pool.emit_accumulator⌉ : ℚ) := le_trans hc this
        exact_mod_cast this
      omega
    rw [dif_neg this]
    exact ⟨rfl, rfl, rfl, rfl⟩
  | succ m ih =>
    intro pool s hm
    rw [continuousLoop]
    by_cases hc : 1 ≤ pool.emit_accumulator
    · rw [dif_pos hc]
      simp only [ParticlePool.emit]
      by_cases hok : (emitGo o c pool.particles s).2.2 = true
      · rw [if_pos hok]
        have hmeas : (⌈pool.emit_accumulator - 1⌉).toNat ≤ m := by
          have h1 : (1 : ℤ) ≤ ⌈pool.emit_accumulator⌉ := by
            have := Int.le_ceil pool.emit_accumulator
            have : (1 : ℚ) ≤ (⌈pool.emit_accumulator⌉ : ℚ) := le_trans hc this
            exact_mod_cast this
          have h2 : ⌈pool.emit_accumulator - 1⌉ = ⌈pool.emit_accumulator⌉ - 1 :=
            Int.ceil_sub_one pool.emit_accumulator
          omega
        have := ih { pool with
            particles := (emitGo o c pool.particles s).1,
            emit_accumulator := pool.emit_accumulator - 1 }
          (emitGo o c pool.particles s).2.1 hmeas
        simpa [emitGo_length] using this
      · rw [if_neg hok]
        exact ⟨emitGo_length o c pool.particles s, rfl, rfl, rfl⟩
    · rw [dif_neg hc]
      exact ⟨rfl, rfl, rfl, rfl⟩

/-- `simulate` preserves the slot count, records the survivor count in
`alive_count`, and leaves the vertex buffer alone. -/
lemma simulate_spec (pool : ParticlePool) (dt g d : ℚ) :
    (pool.simulate dt g d).particles.length = pool.particles.length ∧
    (pool.simulate dt g d).alive_count =
      (pool.simulate dt g d).particles.countP (·.alive) ∧
    (pool.simulate dt g d).vertex_data = pool.vertex_data ∧
    (pool.simulate dt g d).particles =
      pool.particles.map (simParticle dt g d) := by
  refine ⟨?_, rfl, rfl, rfl⟩
  simp [ParticlePool.simulate]

/-- Writing one vertex never changes the buffer size. -/
lemma writeVertex_length (vd : List ℚ) (off : ℕ) (pos : Vec3)
    (u v r g b a : ℚ) : (writeVertex vd off pos u v r g b a).length = vd.length := by
  simp [writeVertex]

/-- The corner loop: when all corners fit, it writes one vertex per
corner, advancing the offset by 9 per vertex. -/
lemma cornersFold_spec (r g b a : ℚ) :
    ∀ (cs : List (Vec3 × ℚ × ℚ)) (vd : List ℚ) (off vc : ℕ),
      off + 9 * cs.length ≤ vd.length →
      (cornersFold r g b a cs (vd, off, vc)).1.length = vd.length ∧
      (cornersFold r g b a cs (vd, off, vc)).2.1 = off + 9 * cs.length ∧
      (cornersFold r g b a cs (vd, off, vc)).2.2 = vc + cs.length := by
  intro cs
  induction cs with
  | nil =>
    intro vd off vc _
    exact ⟨rfl, by simp [cornersFold], by simp [cornersFold]⟩
  | cons c cs ih =>
    intro vd off vc hfit
    simp only [cornersFold, List.foldl_cons] at *
    rw [if_pos (by simp at hfit; omega)]
    have := ih (writeVertex vd off c.1 c.2.1 c.2.2 r g b a) (off + 9) (vc + 1)
      (by rw [writeVertex_length]; simp at hfit ⊢; omega)
    refine ⟨?_, ?_, ?_⟩
    · rw [this.1, writeVertex_length]
    · rw [this.2.1]
      simp
      omega
    · rw [this.2.2]
      simp
      omega

/-- One alive particle appends exactly six vertices when they fit. -/
lemma billboardStep_alive (config : ParticleConfig) (cr cu : Vec3)
    (vd : List ℚ) (off vc : ℕ) (p : Particle) (hp : p.alive = true)
    (hfit : off + 54 ≤ vd.length) :
    (billboardStep config cr cu (vd, off, vc) p).1.length = vd.length ∧
    (billboardStep config cr cu (vd, off, vc) p).2.1 = off + 54 ∧
    (billboardStep config cr cu (vd, off, vc) p).2.2 = vc + 6 := by
  have key : ∀ (cs : List (Vec3 × ℚ × ℚ)) (r g b a : ℚ), cs.length = 6 →
      (cornersFold r g b a cs (vd, off, vc)).1.length = vd.length ∧
      (cornersFold r g b a cs (vd, off, vc)).2.1 = off + 54 ∧
      (cornersFold r g b a cs (vd, off, vc)).2.2 = vc + 6 := by
    intro cs r g b a hcs
    have := cornersFold_spec r g b a cs vd off vc (by rw [hcs]; omega)
    rw [hcs] at this
    exact ⟨this.1, by rw [this.2.1], by rw [this.2.2]⟩
  simp only [billboardStep, hp, Bool.not_true, Bool.false_eq_true, if_false]
  exact key _ _ _ _ _ (by simp)

/-- A dead particle contributes nothing to the billboard build. -/
lemma billboardStep_dead (config : ParticleConfig) (cr cu : Vec3)
    (acc : List ℚ × ℕ × ℕ) (p : Particle) (hp : p.alive = false) :
    billboardStep config cr cu acc p = acc := by
  simp [billboardStep, hp]

/-- The billboard build loop: with a buffer of `M * 6 * 9` floats and at
most `M` alive particles in total, every alive particle emits exactly
six vertices, nine floats each. -/
lemma buildFold_spec (config : ParticleConfig) (cr cu : Vec3) (M : ℕ) :
    ∀ (ps : List Particle) (vd : List ℚ) (k : ℕ),
      vd.length = M * 6 * 9 → k + ps.countP (·.alive) ≤ M →
      (ps.foldl (billboardStep config cr cu) (vd, 9 * (6 * k), 6 * k)).1.length =
        M * 6 * 9 ∧
      (ps.foldl (billboardStep config cr cu) (vd, 9 * (6 * k), 6 * k)).2.2 =
        6 * (k + ps.countP (·.alive)) := by
  intro ps
  induction ps with
  | nil => intro vd k hlen hcap; exact ⟨hlen, by simp⟩
  | cons p ps ih =>
    intro vd k hlen hcap
    simp only [List.foldl_cons]
    by_cases hp : p.alive
    · have hcnt : (p :: ps).countP (·.alive) = ps.countP (·.alive) + 1 := by
        simp [List.countP_cons, hp]
      rw [hcnt] at hcap ⊢
      rcases hstep : billboardStep config cr cu (vd, 9 * (6 * k), 6 * k) p
        with ⟨vd2, off2, vc2⟩
      have hb := billboardStep_alive config cr cu vd (9 * (6 * k)) (6 * k) p hp
        (by rw [hlen]; omega)
      rw [hstep] at hb
      simp only at hb
      have hoff : off2 = 9 * (6 * (k + 1)) := by omega
      have hvc : vc2 = 6 * (k + 1) := by omega
      rw [hoff, hvc]
      have := ih vd2 (k + 1) (hb.1.trans hlen) (by omega)
      refine ⟨this.1, ?_⟩
      rw [this.2]
      ring_nf
    · rw [billboardStep_dead config cr cu _ p (by simpa using hp)]
      have hcnt : (p :: ps).countP (·.alive) = ps.countP (·.alive) := by
        simp [List.countP_cons, hp]
      rw [hcnt] at hcap ⊢
      exact ih vd k hlen hcap

/-- The burst-emission step only touches particle slots, the RNG state
and the config's burst count. -/
lemma burstStep_fields (pool : ParticlePool) (o : Vec3) (c : ParticleConfig)
    (s : ℕ) :
    (burstStep pool o c s).1.particles.length = pool.particles.length ∧
    (burstStep pool o c s).1.vertex_data = pool.vertex_data ∧
    (burstStep pool o c s).1.emit_accumulator = pool.emit_accumulator ∧
    (burstStep pool o c s).2.1.max_particles = c.max_particles := by
  unfold burstStep
  split
  · have := burstLoop_fields o c c.burst_count.toNat pool s
    exact ⟨this.1, this.2.1, this.2.2.2.2, rfl⟩
  · exact ⟨rfl, rfl, rfl, rfl⟩

/-- The continuous-emission step only touches particle slots, the
accumulator and the RNG state. -/
lemma continuousStep_fields (pool : ParticlePool) (dt : ℚ) (o : Vec3)
    (c : ParticleConfig) (s : ℕ) :
    (continuousStep pool dt o c s).1.particles.length = pool.particles.length ∧
    (continuousStep pool dt o c s).1.vertex_data = pool.vertex_data ∧
    (continuousStep pool dt o c s).1.alive_count = pool.alive_count := by
  unfold continuousStep
  have := continuousLoop_fields o c
    (⌈({ pool with emit_accumulator :=
      pool.emit_accumulator + c.emission_rate * dt } :
        ParticlePool).emit_accumulator⌉).toNat
    { pool with emit_accumulator := pool.emit_accumulator + c.emission_rate * dt }
    s (le_refl _)
  exact ⟨this.1, this.2.1, this.2.2.2⟩

/-- `build_billboards` writes six vertices per alive particle when the
buffer holds `M` billboards and at most `M` particles are alive. -/
lemma build_billboards_spec (pool : ParticlePool) (config : ParticleConfig)
    (cr cu : Vec3) (M : ℕ)
    (hvd : pool.vertex_data.length = M * 6 * 9)
    (hcount : pool.particles.countP (·.alive) ≤ M) :
    (pool.build_billboards config cr cu).vertex_count =
      6 * pool.particles.countP (·.alive) ∧
    (pool.build_billboards config cr cu).vertex_data.length = M * 6 * 9 ∧
    (pool.build_billboards config cr cu).particles = pool.particles ∧
    (pool.build_billboards config cr cu).alive_count = pool.alive_count := by
  have h := buildFold_spec config cr cu M pool.particles pool.vertex_data 0 hvd
    (by omega)
  simp only [Nat.mul_zero, Nat.zero_add] at h
  exact ⟨h.2, h.1, rfl, rfl⟩

/-- **C10**: after every `ParticlePool::update` on a pool satisfying the
vertex-buffer size invariant of `ParticlePool::new`, `vertex_count`
equals six times `alive_count`, the vertex buffer holds exactly
`max_particles * 6 * 9` floats (so no write ever goes past its end),
`vertex_count` never exceeds `6 * max_particles`, and the invariant is
re-established. -/
theorem c10_update_spec (pool : ParticlePool) (dt : ℚ) (origin : Vec3)
    (config : ParticleConfig) (cam_pos cam_right cam_up : Vec3) (s : ℕ)
    (hinv : pool.vertex_data.length = pool.particles.length * 6 * 9) :
    ((pool.update dt origin config cam_pos cam_right cam_up s).1.vertex_count =
      6 * (pool.update dt origin config cam_pos cam_right cam_up s).1.alive_count) ∧
    ((pool.update dt origin config cam_pos cam_right cam_up s).1.alive_count ≤
      config.max_particles) ∧
    ((pool.update dt origin config cam_pos cam_right cam_up s).1.vertex_count ≤
      6 * config.max_particles) ∧
    ((pool.update dt origin config cam_pos cam_right cam_up s).1.vertex_data.length =
      config.max_particles * 6 * 9) ∧
    ((pool.update dt origin config cam_pos cam_right cam_up s).1.particles.length =
      config.max_particles) := by
  set p1 := pool.resize config.max_particles with hp1
  have h1len : p1.particles.length = config.max_particles :=
    resize_particles_length pool config.max_particles
  have h1vd : p1.vertex_data.length = config.max_particles * 6 * 9 :=
    resize_vertex_data_length pool config.max_particles hinv
  rcases hb : burstStep p1 origin config s with ⟨p2, config2, s2⟩
  have hbf := burstStep_fields p1 origin config s
  rw [hb] at hbf
  simp only at hbf
  rcases hc : continuousStep p2 dt origin config2 s2 with ⟨p3, s3⟩
  have hcf := continuousStep_fields p2 dt origin config2 s2
  rw [hc] at hcf
  simp only at hcf
  set p4 := p3.simulate dt config2.gravity_modifier config2.damping with hp4
  have hsf := simulate_spec p3 dt config2.gravity_modifier config2.damping
  set p5 := p4.sort_back_to_front cam_pos with hp5
  have hso := sort_back_to_front_spec p4 cam_pos
  have hupd : (pool.update dt origin config cam_pos cam_right cam_up s).1 =
      p5.build_billboards config2 cam_right cam_up := by
    simp [ParticlePool.update, ← hp1, hb, hc, ← hp4, ← hp5]
  have h5len : p5.particles.length = config.max_particles := by
    rw [hso.1, hsf.1, hcf.1, hbf.1, h1len]
  have h5vd : p5.vertex_data.length = config.max_particles * 6 * 9 := by
    rw [hso.2.2.1, hsf.2.2.1, hcf.2.1, hbf.2.1, h1vd]
  have h5count : p5.particles.countP (·.alive) ≤ config.max_particles := by
    rw [← h5len]
    exact List.countP_le_length _
  have h5alive : p5.alive_count = p5.particles.countP (·.alive) := by
    rw [hso.2.2.2.2, hsf.2.1, ← hso.2.1]
  have hbb := build_billboards_spec p5 config2 cam_right cam_up
    config.max_particles h5vd h5count
  rw [hupd]
  refine ⟨?_, ?_, ?_, ?_, ?_⟩
  · rw [hbb.1, hbb.2.2.2, h5alive]
  · rw [hbb.2.2.2, h5alive]
    exact h5count
  · rw [hbb.1]
    omega
  · exact hbb.2.1
  · rw [hbb.2.2.1, h5len]

/-- **C10, witness**: the theorem applied to a freshly created one-slot
pool (which satisfies the buffer invariant by construction). -/
theorem c10_update_witness :
    ((ParticlePool.new 1).vertex_data.length =
      (ParticlePool.new 1).particles.length * 6 * 9) ∧
    (((ParticlePool.new 1).update 0 ⟨0, 0, 0⟩
        (ParticleConfig.mk 1 0 0 0 0 ⟨0, 0, 0⟩ ⟨0, 0, 0⟩ 0 0 0 0 0 ⟨1, 1, 1⟩
          ⟨1, 1, 1⟩ 1 0 false) ⟨0, 0, 0⟩ ⟨0, 0, 0⟩ ⟨0, 0, 0⟩ 0).1.vertex_count =
      6 * ((ParticlePool.new 1).update 0 ⟨0, 0, 0⟩
        (ParticleConfig.mk 1 0 0 0 0 ⟨0, 0, 0⟩ ⟨0, 0, 0⟩ 0 0 0 0 0 ⟨1, 1, 1⟩
          ⟨1, 1, 1⟩ 1 0 false) ⟨0, 0, 0⟩ ⟨0, 0, 0⟩ ⟨0, 0, 0⟩ 0).1.alive_count) := by
  have hinv : (ParticlePool.new 1).vertex_data.length =
      (ParticlePool.new 1).particles.length * 6 * 9 := by
    simp [ParticlePool.new]
  exact ⟨hinv, (c10_update_spec (ParticlePool.new 1) 0 ⟨0, 0, 0⟩
    (ParticleConfig.mk 1 0 0 0 0 ⟨0, 0, 0⟩ ⟨0, 0, 0⟩ 0 0 0 0 0 ⟨1, 1, 1⟩
      ⟨1, 1, 1⟩ 1 0 false) ⟨0, 0, 0⟩ ⟨0, 0, 0⟩ ⟨0, 0, 0⟩ 0 hinv).1⟩

/-! ### Animation clock lemmas (C6) -/

/-- The per-state body of `update_animations` appends exactly one output
state: the input state itself for non-playing states and invalid clip
indices, and the clock-advanced state otherwise. -/
lemma processAnimState_snd (dt : ℝ) (acc : List Entity × List AnimationState)
    (st : AnimationState) (r : List Entity × List AnimationState)
    (h : processAnimState dt acc st = some r) :
    r.2 = acc.2 ++ [if st.playing = false then st
      else if st.active_clip < 0 then st
      else match st.clips.get? st.active_clip.toNat with
        | none => st
        | some clip => advanceTime st dt clip.duration] := by
  unfold processAnimState at h
  split at h
  · rename_i hp
    have hp' : st.playing = false := by simpa using hp
    rw [← Option.some_inj.mp h, hp']
    simp
  · rename_i hp
    have hp' : st.playing = true := by simpa using hp
    split at h
    · rename_i hneg
      rw [← Option.some_inj.mp h, hp']
      simp [hneg]
    · rename_i hneg
      split at h
      · rename_i hclip
        rw [← Option.some_inj.mp h, hp']
        simp [hneg]
      · rename_i clip hclip
        rcases Option.bind_eq_some.mp h with ⟨es', hch, hres⟩
        rw [← Option.some_inj.mp hres, hp']
        simp [hneg]

/-- The animation fold maps each state through its per-state clock
update, in order. -/
lemma animFold_snd (dt : ℝ) :
    ∀ (anims : List AnimationState) (acc r : List Entity × List AnimationState),
      anims.foldlM (processAnimState dt) acc = some r →
      r.2 = acc.2 ++ anims.map (fun st =>
        if st.playing = false then st
        else if st.active_clip < 0 then st
        else match st.clips.get? st.active_clip.toNat with
          | none => st
          | some clip => advanceTime st dt clip.duration) := by
  intro anims
  induction anims with
  | nil =>
    intro acc r h
    simp only [List.foldlM_nil] at h
    rw [← Option.some_inj.mp h]
    simp
  | cons st anims ih =>
    intro acc r h
    simp only [List.foldlM_cons] at h
    rcases Option.bind_eq_some.mp h with ⟨acc', hstep, hrest⟩
    rw [ih acc' r hrest, processAnimState_snd dt acc st acc' hstep]
    simp

/-- Rust float `%` lands in `[0, b)` for a nonnegative dividend and a
positive divisor. -/
lemma fmod_bounds (a b : ℝ) (ha : 0 ≤ a) (hb : 0 < b) :
    0 ≤ fmod a b ∧ fmod a b < b := by
  have hd : 0 ≤ a / b := div_nonneg ha (le_of_lt hb)
  have htr : truncR (a / b) = ⌊a / b⌋ := if_pos hd
  have hfr : fmod a b = b * Int.fract (a / b) := by
    rw [fmod, htr, Int.fract]
    field_simp
  constructor
  · rw [hfr]
    exact mul_nonneg (le_of_lt hb) (Int.fract_nonneg _)
  · rw [hfr]
    calc b * Int.fract (a / b) < b * 1 :=
      (mul_lt_mul_left hb).mpr (Int.fract_lt_one _)
    _ = b := mul_one b

/-- **C6**: when `update_animations` succeeds, every playing animation
state with a valid active clip is replaced by its clock-advanced state
(time advanced by `dt * speed`, then wrapped modulo the duration when
looping — landing in `[0, duration)` for positive duration — or clamped
to the duration with `playing` set to `false` otherwise), and every
state that is not playing or has an invalid active clip index is left
untouched. -/
theorem c6_update_animations_spec (scene : LoadedScene) (dt : ℝ)
    (scene' : LoadedScene) (h : update_animations scene dt = some scene') :
    scene'.animations.length = scene.animations.length ∧
    (∀ j st, scene.animations.get? j = some st →
      ((st.playing = false ∨ st.active_clip < 0 ∨
          st.clips.get? st.active_clip.toNat = none) →
        scene'.animations.get? j = some st) ∧
      (∀ clip, st.playing = true → ¬ st.active_clip < 0 →
        st.clips.get? st.active_clip.toNat = some clip →
        scene'.animations.get? j = some (advanceTime st dt clip.duration))) ∧
    (∀ (st : AnimationState) (d duration : ℝ),
      (duration < st.current_time + d * st.speed →
        (st.looping = true →
          advanceTime st d duration =
            { st with
              current_time := fmod (st.current_time + d * st.speed) duration } ∧
          (0 < duration →
            0 ≤ fmod (st.current_time + d * st.speed) duration ∧
            fmod (st.current_time + d * st.speed) duration < duration)) ∧
        (st.looping = false →
          advanceTime st d duration =
            { st with current_time := duration, playing := false })) ∧
      (¬ duration < st.current_time + d * st.speed →
        advanceTime st d duration =
          { st with current_time := st.current_time + d * st.speed })) := by
  have hfold : ∃ r, scene.animations.foldlM (processAnimState dt)
      (scene.entities, ([] : List AnimationState)) = some r ∧
      scene' = { scene with entities := r.1, animations := r.2 } := by
    unfold update_animations at h
    rcases Option.bind_eq_some.mp h with ⟨r, hr, hres⟩
    exact ⟨r, hr, (Option.some_inj.mp hres).symm⟩
  rcases hfold with ⟨r, hr, hsc⟩
  have hmap := animFold_snd dt scene.animations
    (scene.entities, ([] : List AnimationState)) r hr
  simp only [List.nil_append] at hmap
  have hanims : scene'.animations = scene.animations.map (fun st =>
      if st.playing = false then st
      else if st.active_clip < 0 then st
      else match st.clips.get? st.active_clip.toNat with
        | none => st
        | some clip => advanceTime st dt clip.duration) := by
    rw [hsc]
    exact hmap
  refine ⟨by rw [hanims]; simp, ?_, ?_⟩
  · intro j st hst
    constructor
    · intro hcase
      rw [hanims, List.get?_map, hst]
      rcases hcase with hcase | hcase | hcase
      · simp [hcase]
      · rcases Classical.em (st.playing = false) with hp | hp
        · simp [hp]
        · have hp' : st.playing = true := by revert hp; cases st.playing <;> simp
          simp [hp', hcase]
      · rcases Classical.em (st.playing = false) with hp | hp
        · simp [hp]
        · have hp' : st.playing = true := by revert hp; cases st.playing <;> simp
          rcases Classical.em (st.active_clip < 0) with hneg | hneg
          · simp [hp', hneg]
          · rw [List.get?_eq_getElem?] at hcase
            simp [hp', hneg, hcase]
    · intro clip hp hneg hclip
      rw [hanims, List.get?_map, hst]
      rw [List.get?_eq_getElem?] at hclip
      simp [hp, hneg, hclip]
  · intro st d duration
    constructor
    · intro hover
      constructor
      · intro hloop
        constructor
        · unfold advanceTime
          rw [if_pos hover, hloop]
          simp
        · intro hdur
          have ht1 : 0 ≤ st.current_time + d * st.speed := by linarith
          exact fmod_bounds _ _ ht1 hdur
      · intro hloop
        unfold advanceTime
        rw [if_pos hover, hloop]
        simp
    · intro hover
      unfold advanceTime
      rw [if_neg hover]

/-- **C6, witness**: the theorem applied to the empty scene (on which
`update_animations` trivially succeeds). -/
theorem c6_update_animations_witness :
    update_animations (LoadedScene.mk [] [] []) 1 =
      some (LoadedScene.mk [] [] []) ∧
    (LoadedScene.mk [] [] []).animations.length =
      (LoadedScene.mk [] [] []).animations.length := by
  have h : update_animations (LoadedScene.mk [] [] []) 1 =
      some (LoadedScene.mk [] [] []) := rfl
  exact ⟨h, (c6_update_animations_spec (LoadedScene.mk [] [] []) 1
    (LoadedScene.mk [] [] []) h).1⟩

/-! ### Skinning lemmas (C8) -/

/-- `Option.mapM` characterization: success maps every element in
place. -/
lemma mapM_some_get {α β : Type} (f : α → Option β) :
    ∀ (l : List α) (r : List β), l.mapM f = some r →
      r.length = l.length ∧
      ∀ k x, l.get? k = some x → ∃ y, f x = some y ∧ r.get? k = some y := by
  intro l
  induction l with
  | nil =>
    intro r h
    simp only [List.mapM_nil, Option.pure_def, Option.some_inj] at h
    subst h
    exact ⟨rfl, fun k x hx => by simp at hx⟩
  | cons a l ih =>
    intro r h
    simp only [List.mapM_cons, Option.pure_def, Option.bind_eq_bind] at h
    rcases Option.bind_eq_some.mp h with ⟨y, hy, h2⟩
    rcases Option.bind_eq_some.mp h2 with ⟨ys, hys, h3⟩
    rcases Option.some_inj.mp h3 with rfl
    have := ih ys hys
    refine ⟨by simp [this.1], ?_⟩
    intro k x hx
    cases k with
    | zero =>
      rcases Option.some_inj.mp hx with rfl
      exact ⟨y, hy, rfl⟩
    | succ k =>
      simp only [List.get?_cons_succ] at hx ⊢
      exact this.2 k x hx
/-- `Option.mapM` succeeds when `f` succeeds on every element. -/
lemma mapM_some_of_all {α β : Type} (f : α → Option β) :
    ∀ (l : List α), (∀ x ∈ l, ∃ y, f x = some y) → ∃ r, l.mapM f = some r := by
  intro l
  induction l with
  | nil => intro _; exact ⟨[], rfl⟩
  | cons a l ih =>
    intro hall
    rcases hall a (by simp) with ⟨y, hy⟩
    rcases ih (fun x hx => hall x (by simp [hx])) with ⟨ys, hys⟩
    refine ⟨y :: ys, ?_⟩
    simp only [List.mapM_cons, Option.pure_def, Option.bind_eq_bind, hy, hys,
      Option.some_bind]

/-- The per-bone loop of `update_skinned_meshes`: with enough
inverse-bind matrices, it succeeds and writes, slot by slot, the
identity for out-of-range bone entities and the skinning product
otherwise. -/
lemma boneFold_spec (entities : List Entity) (sk : SkeletonData)
    (inv_mesh : Mat4) :
    ∀ (n : ℕ) (bm : List Mat4), n ≤ bm.length →
      n ≤ sk.inverse_bind_matrices.length →
      ∃ R, (List.range n).foldlM
        (fun (bm : List Mat4) i =>
          let bone_entity_idx := sk.bone_entity_indices.getD i 0
          match entities.get? bone_entity_idx with
          | none => some (bm.set i (1 : Mat4))
          | some be => do
            let inv_bind ← sk.inverse_bind_matrices.get? i
            pure (bm.set i (inv_mesh * be.world_transform * inv_bind))) bm
        = some R ∧
        R.length = bm.length ∧
        (∀ i, n ≤ i → R.get? i = bm.get? i) ∧
        (∀ i, i < n → R.get? i =
          some (match entities.get? (sk.bone_entity_indices.getD i 0) with
            | none => (1 : Mat4)
            | some be =>
              inv_mesh * be.world_transform *
                sk.inverse_bind_matrices.getD i 1)) := by
  intro n
  induction n with
  | zero =>
    intro bm _ _
    exact ⟨bm, rfl, rfl, fun i _ => rfl, fun i hi => by omega⟩
  | succ n ih =>
    intro bm hlen hib
    rcases ih bm (by omega) (by omega) with ⟨mid, hmid, hmlen, hmhigh, hmlow⟩
    have hnb : n < bm.length := by omega
    have hnib : n < sk.inverse_bind_matrices.length := by omega
    have hmn : n < mid.length := by omega
    -- value written at slot n
    rcases hbe : entities.get? (sk.bone_entity_indices.getD n 0) with _ | be
    · refine ⟨mid.set n (1 : Mat4), ?_, by simp [hmlen], ?_, ?_⟩
      · rw [List.range_succ, List.foldlM_append, hmid]
        simp only [Option.some_bind, List.foldlM_cons, List.foldlM_nil]
        simp only [List.getD_eq_getElem?_getD, List.get?_eq_getElem?] at hbe
        simp [hbe]
      · intro i hi
        rw [List.get?_eq_getElem?, List.getElem?_set_ne (by omega),
          ← List.get?_eq_getElem?]
        exact hmhigh i (by omega)
      · intro i hi
        rcases Nat.lt_succ_iff_lt_or_eq.mp hi with hi' | rfl
        · rw [List.get?_eq_getElem?, List.getElem?_set_ne (by omega),
            ← List.get?_eq_getElem?]
          exact hmlow i hi'
        · rw [List.get?_eq_getElem?, List.getElem?_set_self hmn, hbe]
    · have hibs : sk.inverse_bind_matrices[n]? =
          some (sk.inverse_bind_matrices[n]) := List.getElem?_eq_getElem hnib
      have hgd : sk.inverse_bind_matrices.getD n 1 =
          sk.inverse_bind_matrices[n] := List.getD_eq_getElem _ _ hnib
      refine ⟨mid.set n
        (inv_mesh * be.world_transform * sk.inverse_bind_matrices.getD n 1),
        ?_, by simp [hmlen], ?_, ?_⟩
      · rw [List.range_succ, List.foldlM_append, hmid]
        simp only [Option.some_bind, List.foldlM_cons, List.foldlM_nil]
        simp only [List.getD_eq_getElem?_getD, List.get?_eq_getElem?] at hbe
        simp [hbe, hibs, hgd]
      · intro i hi
        rw [List.get?_eq_getElem?, List.getElem?_set_ne (by omega),
          ← List.get?_eq_getElem?]
        exact hmhigh i (by omega)
      · intro i hi
        rcases Nat.lt_succ_iff_lt_or_eq.mp hi with hi' | rfl
        · rw [List.get?_eq_getElem?, List.getElem?_set_ne (by omega),
            ← List.get?_eq_getElem?]
          exact hmlow i hi'
        · rw [List.get?_eq_getElem?, List.getElem?_set_self hmn, hbe]

/-- Per-skeleton behaviour of `update_skinned_meshes`: skip when the
owning entity index is out of range, else resize the bone-matrix buffer
to at most `MAX_BONES` entries and fill each slot. -/
lemma processSkeleton_spec (entities : List Entity) (sk : SkeletonData)
    (hib : min sk.bone_entity_indices.length MAX_BONES ≤
      sk.inverse_bind_matrices.length) :
    (entities.get? sk.entity_index = none →
      processSkeleton entities sk = some sk) ∧
    (∀ e, entities.get? sk.entity_index = some e →
      ∃ sk', processSkeleton entities sk = some sk' ∧
        sk'.entity_index = sk.entity_index ∧
        sk'.bone_entity_indices = sk.bone_entity_indices ∧
        sk'.inverse_bind_matrices = sk.inverse_bind_matrices ∧
        sk'.bone_matrices.length =
          min sk.bone_entity_indices.length MAX_BONES ∧
        ∀ i, i < min sk.bone_entity_indices.length MAX_BONES →
          sk'.bone_matrices.get? i =
            some (match entities.get? (sk.bone_entity_indices.getD i 0) with
              | none => (1 : Mat4)
              | some be => e.world_transform⁻¹ * be.world_transform *
                  sk.inverse_bind_matrices.getD i 1)) := by
  constructor
  · intro hnone
    unfold processSkeleton
    rw [hnone]
  · intro e he
    have hinit : (listResize sk.bone_matrices
        (min sk.bone_entity_indices.length MAX_BONES) (1 : Mat4)).length =
        min sk.bone_entity_indices.length MAX_BONES :=
      listResize_length _ _ _
    rcases boneFold_spec entities sk (e.world_transform⁻¹)
        (min sk.bone_entity_indices.length MAX_BONES)
        (listResize sk.bone_matrices
          (min sk.bone_entity_indices.length MAX_BONES) (1 : Mat4))
        (by rw [hinit]) hib
      with ⟨R, hR, hRlen, _, hRval⟩
    refine ⟨{ sk with bone_matrices := R }, ?_, rfl, rfl, rfl, ?_, hRval⟩
    · unfold processSkeleton
      rw [he]
      simp only [Option.pure_def, Option.bind_eq_bind] at hR ⊢
      rw [hR]
      rfl
    · rw [hRlen, hinit]

/-- **C8**: under the §3 data-model invariant that each skeleton carries
an inverse-bind matrix for each of its (at most `MAX_BONES`) processed
bones, `update_skinned_meshes` succeeds; a skeleton whose owning entity
index is out of range is skipped untouched, and any other skeleton gets
its `bone_matrices` resized to `min(bone_count, MAX_BONES)` and filled
with `inverse(mesh_world) * bone_world * inverse_bind` for bones whose
entity index is in range and the identity matrix otherwise. -/
theorem c8_update_skinned_meshes_spec (scene : LoadedScene)
    (hib : ∀ sk ∈ scene.skeletons,
      min sk.bone_entity_indices.length MAX_BONES ≤
        sk.inverse_bind_matrices.length) :
    ∃ scene', update_skinned_meshes scene = some scene' ∧
      scene'.entities = scene.entities ∧
      scene'.animations = scene.animations ∧
      scene'.skeletons.length = scene.skeletons.length ∧
      ∀ k sk, scene.skeletons.get? k = some sk →
        (scene.entities.get? sk.entity_index = none →
          scene'.skeletons.get? k = some sk) ∧
        (∀ e, scene.entities.get? sk.entity_index = some e →
          ∃ sk', scene'.skeletons.get? k = some sk' ∧
            sk'.entity_index = sk.entity_index ∧
            sk'.bone_entity_indices = sk.bone_entity_indices ∧
            sk'.inverse_bind_matrices = sk.inverse_bind_matrices ∧
            sk'.bone_matrices.length =
              min sk.bone_entity_indices.length MAX_BONES ∧
            ∀ i, i < min sk.bone_entity_indices.length MAX_BONES →
              sk'.bone_matrices.get? i =
                some (match scene.entities.get?
                    (sk.bone_entity_indices.getD i 0) with
                  | none => (1 : Mat4)
                  | some be => e.world_transform⁻¹ * be.world_transform *
                      sk.inverse_bind_matrices.getD i 1)) := by
  have hall : ∀ sk ∈ scene.skeletons, ∃ y,
      processSkeleton scene.entities sk = some y := by
    intro sk hsk
    have hspec := processSkeleton_spec scene.entities sk (hib sk hsk)
    rcases he : scene.entities.get? sk.entity_index with _ | e
    · exact ⟨sk, hspec.1 he⟩
    · rcases hspec.2 e he with ⟨sk', hsk', _⟩
      exact ⟨sk', hsk'⟩
  rcases mapM_some_of_all _ scene.skeletons hall with ⟨skels, hskels⟩
  have hget := mapM_some_get _ scene.skeletons skels hskels
  refine ⟨{ scene with skeletons := skels }, ?_, rfl, rfl, by simp [hget.1], ?_⟩
  · unfold update_skinned_meshes
    simp only [Option.pure_def, Option.bind_eq_bind]
    rw [hskels]
    rfl
  · intro k sk hsk
    rcases hget.2 k sk hsk with ⟨y, hy, hky⟩
    have hspec := processSkeleton_spec scene.entities sk (hib sk
      (by exact List.get?_mem hsk))
    constructor
    · intro hnone
      have : y = sk := by
        rw [hspec.1 hnone] at hy
        exact (Option.some_inj.mp hy).symm
      rw [this] at hky
      exact hky
    · intro e he
      rcases hspec.2 e he with ⟨sk', hsk', hrest⟩
      have : y = sk' := by
        rw [hsk'] at hy
        exact (Option.some_inj.mp hy).symm
      rw [this] at hky
      exact ⟨sk', hky, hrest⟩

/-- **C8, witness**: the theorem applied to the empty scene. -/
theorem c8_update_skinned_meshes_witness :
    (∀ sk ∈ (LoadedScene.mk [] [] []).skeletons,
      min sk.bone_entity_indices.length MAX_BONES ≤
        sk.inverse_bind_matrices.length) ∧
    ∃ scene', update_skinned_meshes (LoadedScene.mk [] [] []) = some scene' ∧
      scene'.entities = [] ∧ scene'.animations = [] ∧
      scene'.skeletons.length = 0 := by
  have hib : ∀ sk ∈ (LoadedScene.mk [] [] []).skeletons,
      min sk.bone_entity_indices.length MAX_BONES ≤
        sk.inverse_bind_matrices.length := by
    intro sk hsk
    simp at hsk
  rcases c8_update_skinned_meshes_spec (LoadedScene.mk [] [] []) hib
    with ⟨scene', h1, h2, h3, h4, _⟩
  exact ⟨hib, scene', h1, h2, h3, h4⟩

/-! ### Transform lemmas (C7) -/

/-- One transform step only writes entity `i`. -/
lemma computeStep_get_ne (es : List Entity) (i j : ℕ) (hij : j ≠ i) :
    (computeStep es i).get? j = es.get? j := by
  unfold computeStep
  rcases h : es.get? i with _ | e
  · rfl
  · rw [List.get?_eq_getElem?, List.getElem?_set_ne (by omega),
      ← List.get?_eq_getElem?]

/-- One transform step preserves the entity count. -/
lemma computeStep_length (es : List Entity) (i : ℕ) :
    (computeStep es i).length = es.length := by
  unfold computeStep
  rcases h : es.get? i with _ | e
  · rfl
  · simp

/-- The transform pass preserves the entity count. -/
lemma cwtFold_length : ∀ (k : ℕ) (es : List Entity),
    ((List.range k).foldl computeStep es).length = es.length := by
  intro k
  induction k with
  | zero => intro es; rfl
  | succ k ih =>
    intro es
    rw [List.range_succ, List.foldl_append, List.foldl_cons, List.foldl_nil,
      computeStep_length, ih]

/-- Entities at or above the fold bound are untouched. -/
lemma cwtFold_get_high : ∀ (k : ℕ) (es : List Entity) (j : ℕ), k ≤ j →
    ((List.range k).foldl computeStep es).get? j = es.get? j := by
  intro k
  induction k with
  | zero => intro es j _; rfl
  | succ k ih =>
    intro es j hj
    rw [List.range_succ, List.foldl_append, List.foldl_cons, List.foldl_nil,
      computeStep_get_ne _ _ _ (by omega), ih es j (by omega)]

/-- Entities below the fold bound keep their value in any longer fold. -/
lemma cwtFold_prefix_stable : ∀ (m k : ℕ) (es : List Entity) (j : ℕ),
    j < k → k ≤ m →
    ((List.range m).foldl computeStep es).get? j =
      ((List.range k).foldl computeStep es).get? j := by
  intro m
  induction m with
  | zero => intro k es j h1 h2; omega
  | succ m ih =>
    intro k es j h1 h2
    rcases Nat.lt_succ_iff_lt_or_eq.mp (Nat.lt_succ_of_le h2) with hk | rfl
    · rw [List.range_succ, List.foldl_append, List.foldl_cons, List.foldl_nil,
        computeStep_get_ne _ _ _ (by omega)]
      exact ih k es j h1 (by omega)
    · rfl

/-- Unfolding of one transform step at a present entity. -/
lemma computeStep_some (es : List Entity) (i : ℕ) (e : Entity)
    (h : es.get? i = some e) :
    computeStep es i = es.set i
      { e with
        world_transform := (match e.parent_index with
          | some p =>
            match es.get? p with
            | some pe => pe.world_transform * compose_local_transform
                e.transform.position e.transform.rotation e.transform.scale
            | none => compose_local_transform e.transform.position
                e.transform.rotation e.transform.scale
          | none => compose_local_transform e.transform.position
              e.transform.rotation e.transform.scale),
        transform := { e.transform with dirty := false } } := by
  unfold computeStep
  rw [h]

/-- Characterization of the transform pass on a parent-before-child
(depth-first) entity array: each entity keeps all its fields, its dirty
flag is cleared, and its world matrix is its local matrix pre-multiplied
by its parent's (final) world matrix when it has one. -/
lemma cwt_char (es : List Entity)
    (hdfs : ∀ i e p, es.get? i = some e → e.parent_index = some p → p < i) :
    ∀ i e, es.get? i = some e →
      (compute_world_transforms es).get? i = some
        { e with
          world_transform := (match e.parent_index with
            | none => compose_local_transform e.transform.position
                e.transform.rotation e.transform.scale
            | some p =>
              match (compute_world_transforms es).get? p with
              | some pe => pe.world_transform * compose_local_transform
                  e.transform.position e.transform.rotation e.transform.scale
              | none => compose_local_transform e.transform.position
                  e.transform.rotation e.transform.scale),
          transform := { e.transform with dirty := false } } := by
  intro i e hi
  have hin : i < es.length := by
    by_contra hc
    rw [List.get?_eq_getElem?, List.getElem?_eq_none (by omega)] at hi
    exact Option.noConfusion hi
  have hstep : (compute_world_transforms es).get? i =
      (computeStep ((List.range i).foldl computeStep es) i).get? i := by
    unfold compute_world_transforms
    rw [cwtFold_prefix_stable es.length (i + 1) es i (by omega) (by omega),
      List.range_succ, List.foldl_append, List.foldl_cons, List.foldl_nil]
  have hA : ((List.range i).foldl computeStep es).get? i = some e := by
    rw [cwtFold_get_high i es i (le_refl i)]
    exact hi
  have hAlen : i < ((List.range i).foldl computeStep es).length := by
    rw [cwtFold_length]
    exact hin
  have hAP : ∀ p, p < i →
      ((List.range i).foldl computeStep es).get? p =
        (compute_world_transforms es).get? p := by
    intro p hp
    unfold compute_world_transforms
    rw [cwtFold_prefix_stable es.length (p + 1) es p (by omega) (by omega),
      cwtFold_prefix_stable i (p + 1) es p (by omega) (by omega)]
  rw [hstep, computeStep_some _ _ _ hA]
  rcases hpar : e.parent_index with _ | p
  · simp only
    rw [List.get?_eq_getElem?, List.getElem?_set_self hAlen]
  · have hpi : p < i := hdfs i e p hi hpar
    simp only [hAP p hpi]
    rw [List.get?_eq_getElem?, List.getElem?_set_self hAlen]

/-- **C7**: on a depth-first-ordered entity array (every parent index
strictly below its child's index), `compute_world_transforms` gives every
parentless entity the local matrix composed from its position, rotation
and scale, and every other entity its parent's (final) world matrix times
its local matrix — so a 3-level chain multiplies root, child and
grandchild locals in that order; every dirty flag is cleared; and running
the pass a second time changes nothing. -/
theorem c7_compute_world_transforms_spec (es : List Entity)
    (hdfs : ∀ i e p, es.get? i = some e → e.parent_index = some p → p < i) :
    (compute_world_transforms es).length = es.length ∧
    (∀ i e, es.get? i = some e →
      (compute_world_transforms es).get? i = some
        { e with
          world_transform := (match e.parent_index with
            | none => compose_local_transform e.transform.position
                e.transform.rotation e.transform.scale
            | some p =>
              match (compute_world_transforms es).get? p with
              | some pe => pe.world_transform * compose_local_transform
                  e.transform.position e.transform.rotation e.transform.scale
              | none => compose_local_transform e.transform.position
                  e.transform.rotation e.transform.scale),
          transform := { e.transform with dirty := false } }) ∧
    (∀ i e', (compute_world_transforms es).get? i = some e' →
      e'.transform.dirty = false) ∧
    (compute_world_transforms (compute_world_transforms es) =
      compute_world_transforms es) ∧
    (∀ e0 e1 e2 x2,
      es.get? 0 = some e0 → e0.parent_index = none →
      es.get? 1 = some e1 → e1.parent_index = some 0 →
      es.get? 2 = some e2 → e2.parent_index = some 1 →
      (compute_world_transforms es).get? 2 = some x2 →
      x2.world_transform =
        compose_local_transform e0.transform.position e0.transform.rotation
            e0.transform.scale *
          compose_local_transform e1.transform.position e1.transform.rotation
            e1.transform.scale *
          compose_local_transform e2.transform.position e2.transform.rotation
            e2.transform.scale) := by
  have hlen : (compute_world_transforms es).length = es.length :=
    cwtFold_length es.length es
  have hchar := cwt_char es hdfs
  have hsome : ∀ i, i < es.length → ∃ e, es.get? i = some e := by
    intro i hi
    rcases h : es.get? i with _ | e
    · rw [List.get?_eq_getElem?, List.getElem?_eq_getElem hi] at h
      exact Option.noConfusion h
    · exact ⟨e, rfl⟩
  refine ⟨hlen, hchar, ?_, ?_, ?_⟩
  · -- dirty cleared
    intro i e' he'
    have hi : i < es.length := by
      by_contra hc
      rw [List.get?_eq_getElem?, List.getElem?_eq_none (by omega)] at he'
      exact Option.noConfusion he'
    rcases hsome i hi with ⟨e, he⟩
    rw [hchar i e he] at he'
    rw [← Option.some_inj.mp he']
  · -- idempotence
    have hdfs' : ∀ i e' p, (compute_world_transforms es).get? i = some e' →
        e'.parent_index = some p → p < i := by
      intro i e' p he' hp
      have hi : i < es.length := by
        by_contra hc
        rw [List.get?_eq_getElem?, List.getElem?_eq_none (by omega)] at he'
        exact Option.noConfusion he'
      rcases hsome i hi with ⟨e, he⟩
      rw [hchar i e he] at he'
      have : e'.parent_index = e.parent_index := by
        rw [← Option.some_inj.mp he']
      exact hdfs i e p he (by rw [← this, hp])
    have hchar' := cwt_char (compute_world_transforms es) hdfs'
    have hkey : ∀ i, ∀ e, es.get? i = some e →
        (compute_world_transforms (compute_world_transforms es)).get? i =
          (compute_world_transforms es).get? i := by
      intro i
      induction i using Nat.strong_induction_on with
      | _ i ih =>
        intro e he
        have hx := hchar i e he
        have hx' := hchar' i _ hx
        rw [hx', hx]
        rcases hpar : e.parent_index with _ | p
        · simp [hpar]
        · have hpi : p < i := hdfs i e p he hpar
          have hplen : p < es.length := by
            have : i < es.length := by
              by_contra hc
              rw [List.get?_eq_getElem?, List.getElem?_eq_none (by omega)] at he
              exact Option.noConfusion he
            omega
          rcases hsome p hplen with ⟨ep, hep⟩
          have hrec := ih p hpi ep hep
          rw [List.get?_eq_getElem?, List.get?_eq_getElem?] at hrec
          simp [hpar, hrec]
    have hlen2 : (compute_world_transforms
        (compute_world_transforms es)).length =
        (compute_world_transforms es).length :=
      cwtFold_length (compute_world_transforms es).length
        (compute_world_transforms es)
    apply List.ext_get?
    intro n
    by_cases hn : n < es.length
    · rcases hsome n hn with ⟨e, he⟩
      exact hkey n e he
    · rw [List.get?_eq_getElem?, List.get?_eq_getElem?,
        List.getElem?_eq_none (by rw [hlen2, hlen]; omega),
        List.getElem?_eq_none (by rw [hlen]; omega)]
  · -- 3-level chain
    intro e0 e1 e2 x2 h0 hp0 h1 hp1 h2 hp2 hx2
    have hc0 := hchar 0 e0 h0
    simp only [hp0] at hc0
    have hc1 := hchar 1 e1 h1
    simp only [hp1, hc0] at hc1
    have hc2 := hchar 2 e2 h2
    simp only [hp2, hc1] at hc2
    rw [hc2] at hx2
    rw [← Option.some_inj.mp hx2]

/-- **C7, witness**: the theorem applied to the empty entity array
(vacuously depth-first ordered). -/
theorem c7_compute_world_transforms_witness :
    (∀ i e p, ([] : List Entity).get? i = some e →
      e.parent_index = some p → p < i) ∧
    (compute_world_transforms ([] : List Entity)).length =
      ([] : List Entity).length := by
  have hdfs : ∀ i e p, ([] : List Entity).get? i = some e →
      e.parent_index = some p → p < i := by
    intro i e p h
    simp at h
  exact ⟨hdfs, (c7_compute_world_transforms_spec [] hdfs).1⟩

/-! ### Full-tick panic-freedom lemmas (C1) -/

/-- The binary-search loop stays inside its initial bracket. -/
lemma findLoop_bounds {α : Type} [LinearOrderedField α] (T : List α) (t : α) :
    ∀ (n lo hi : ℕ), hi - lo ≤ n → lo ≤ hi →
      lo ≤ (findLoop T t lo hi).1 ∧
      (findLoop T t lo hi).1 ≤ (findLoop T t lo hi).2 ∧
      (findLoop T t lo hi).2 ≤ hi := by
  intro n
  induction n with
  | zero =>
    intro lo hi hb hle
    rw [findLoop]
    rw [if_neg (by omega)]
    exact ⟨le_refl _, hle, le_refl _⟩
  | succ n ih =>
    intro lo hi hb hle
    rw [findLoop]
    by_cases hc : lo < hi - 1
    · rw [if_pos hc]
      by_cases hm : T.getD ((lo + hi) / 2) 0 ≤ t
      · rw [if_pos hm]
        have := ih ((lo + hi) / 2) hi (by omega) (by omega)
        exact ⟨by omega, this.2.1, this.2.2⟩
      · rw [if_neg hm]
        have := ih lo ((lo + hi) / 2) (by omega) (by omega)
        exact ⟨this.1, this.2.1, by omega⟩
    · rw [if_neg hc]
      exact ⟨le_refl _, hle, le_refl _⟩

/-- Whatever `find_keyframe_index` returns is in range. -/
lemma find_keyframe_index_bounds {α : Type} [LinearOrderedField α]
    (T : List α) (t : α) (i0 i1 : ℕ) (f : α)
    (h : find_keyframe_index T t = some (i0, i1, f)) :
    i0 < T.length ∧ i1 < T.length := by
  unfold find_keyframe_index at h
  split at h
  · exact Option.noConfusion h
  · rename_i hne
    have hpos : 0 < T.length := by
      rcases T with _ | _
      · simp at hne
      · simp
    split at h
    · obtain ⟨h1, h2, h3⟩ : i0 = 0 ∧ i1 = 0 ∧ f = 0 := by
        simpa using (Option.some_inj.mp h).symm
      omega
    · split at h
      · obtain ⟨h1, h2, h3⟩ : i0 = 0 ∧ i1 = 0 ∧ f = 0 := by
          simpa using (Option.some_inj.mp h).symm
        omega
      · split at h
        · obtain ⟨h1, h2, h3⟩ : i0 = T.length - 1 ∧ i1 = T.length - 1 ∧ f = 0 := by
            simpa using (Option.some_inj.mp h).symm
          constructor <;> omega
        · rename_i h1 h2 h3
          have hlen2 : 2 ≤ T.length := by
            rcases T with _ | ⟨a, _ | ⟨b, l⟩⟩
            · simp at hne
            · simp at h1
            · simp
          have hb := findLoop_bounds T t T.length 0 (T.length - 1)
            (by omega) (by omega)
          obtain ⟨h1, h2, h3⟩ : i0 = (findLoop T t 0 (T.length - 1)).1 ∧
              i1 = (findLoop T t 0 (T.length - 1)).2 ∧
              f = (if |T.getD (findLoop T t 0 (T.length - 1)).2 0 -
                    T.getD (findLoop T t 0 (T.length - 1)).1 0| < 1 / 100000000
                  then 0
                  else (t - T.getD (findLoop T t 0 (T.length - 1)).1 0) /
                    (T.getD (findLoop T t 0 (T.length - 1)).2 0 -
                     T.getD (findLoop T t 0 (T.length - 1)).1 0)) := by
            simpa using (Option.some_inj.mp h).symm
          constructor <;> omega

/-- `get_vec3` succeeds on a value buffer holding at least `index + 1`
triples. -/
lemma get_vec3_some (values : List ℝ) (index : ℕ)
    (h : 3 * index + 3 ≤ values.length) :
    ∃ v, get_vec3 values index = some v := by
  unfold get_vec3
  rw [List.get?_eq_getElem?, List.getElem?_eq_getElem (by omega),
    List.get?_eq_getElem?, List.getElem?_eq_getElem (by omega),
    List.get?_eq_getElem?, List.getElem?_eq_getElem (by omega)]
  exact ⟨_, rfl⟩

/-- `get_quat` succeeds on a value buffer holding at least `index + 1`
quadruples. -/
lemma get_quat_some (values : List ℝ) (index : ℕ)
    (h : 4 * index + 4 ≤ values.length) :
    ∃ q, get_quat values index = some q := by
  unfold get_quat
  rw [List.get?_eq_getElem?, List.getElem?_eq_getElem (by omega),
    List.get?_eq_getElem?, List.getElem?_eq_getElem (by omega),
    List.get?_eq_getElem?, List.getElem?_eq_getElem (by omega),
    List.get?_eq_getElem?, List.getElem?_eq_getElem (by omega)]
  exact ⟨_, rfl⟩

/-- A channel application never panics when its value buffer matches its
keyframe count (3 values per key for position/scale, 4 for rotation);
out-of-range targets and empty keyframe lists are skipped. -/
lemma applyChannel_some (entities : List Entity) (time : ℝ)
    (ch : AnimationChannel)
    (hrot : ch.target_property = TargetProperty.Rotation →
      4 * ch.times.length ≤ ch.values.length)
    (hvec : ch.target_property ≠ TargetProperty.Rotation →
      3 * ch.times.length ≤ ch.values.length) :
    ∃ es', applyChannel entities time ch = some es' := by
  unfold applyChannel
  split
  · exact ⟨entities, rfl⟩
  · rcases hf : find_keyframe_index ch.times time with _ | ⟨i0, i1, t⟩
    · exact ⟨entities, rfl⟩
    · have hbounds := find_keyframe_index_bounds ch.times time i0 i1 t hf
      rcases hp : ch.target_property with _ | _ | _
      · have hlen := hvec (by rw [hp]; intro hc; exact TargetProperty.noConfusion hc)
        rcases get_vec3_some ch.values i0 (by omega) with ⟨v0, hv0⟩
        rcases get_vec3_some ch.values i1 (by omega) with ⟨v1, hv1⟩
        rcases hi : ch.interpolation <;> simp [hv0, hv1]
      · have hlen := hrot hp
        rcases get_quat_some ch.values i0 (by omega) with ⟨q0, hq0⟩
        rcases get_quat_some ch.values i1 (by omega) with ⟨q1, hq1⟩
        rcases hi : ch.interpolation <;> simp [hq0, hq1]
      · have hlen := hvec (by rw [hp]; intro hc; exact TargetProperty.noConfusion hc)
        rcases get_vec3_some ch.values i0 (by omega) with ⟨v0, hv0⟩
        rcases get_vec3_some ch.values i1 (by omega) with ⟨v1, hv1⟩
        rcases hi : ch.interpolation <;> simp [hv0, hv1]

/-- Applying a clip's channels never panics when every channel's value
buffer matches its keyframe count. -/
lemma applyChannels_some (time : ℝ) :
    ∀ (channels : List AnimationChannel) (entities : List Entity),
      (∀ ch ∈ channels,
        (ch.target_property = TargetProperty.Rotation →
          4 * ch.times.length ≤ ch.values.length) ∧
        (ch.target_property ≠ TargetProperty.Rotation →
          3 * ch.times.length ≤ ch.values.length)) →
      ∃ es', applyChannels entities time channels = some es' := by
  intro channels
  induction channels with
  | nil => intro entities _; exact ⟨entities, rfl⟩
  | cons ch chs ih =>
    intro entities hall
    rcases applyChannel_some entities time ch (hall ch (by simp)).1
      (hall ch (by simp)).2 with ⟨es1, hes1⟩
    rcases ih es1 (fun c hc => hall c (by simp [hc])) with ⟨es2, hes2⟩
    refine ⟨es2, ?_⟩
    unfold applyChannels at hes2 ⊢
    rw [List.foldlM_cons, hes1]
    exact hes2

/-- One animation state never panics the tick when its clips' channels
have well-sized value buffers. -/
lemma processAnimState_some (dt : ℝ) (acc : List Entity × List AnimationState)
    (st : AnimationState)
    (hall : ∀ clip ∈ st.clips, ∀ ch ∈ clip.channels,
      (ch.target_property = TargetProperty.Rotation →
        4 * ch.times.length ≤ ch.values.length) ∧
      (ch.target_property ≠ TargetProperty.Rotation →
        3 * ch.times.length ≤ ch.values.length)) :
    ∃ r, processAnimState dt acc st = some r := by
  unfold processAnimState
  split
  · exact ⟨_, rfl⟩
  · split
    · exact ⟨_, rfl⟩
    · rcases hclip : st.clips.get? st.active_clip.toNat with _ | clip
      · exact ⟨_, rfl⟩
      · have hmem : clip ∈ st.clips := List.get?_mem hclip
        rcases applyChannels_some (advanceTime st dt clip.duration).current_time
          clip.channels acc.1 (hall clip hmem) with ⟨es', hes'⟩
        refine ⟨(es', acc.2 ++ [advanceTime st dt clip.duration]), ?_⟩
        simp [hes']

/-- `update_animations` never panics when every channel value buffer in
the scene matches its keyframe count. -/
lemma update_animations_some (scene : LoadedScene) (dt : ℝ)
    (hall : ∀ st ∈ scene.animations, ∀ clip ∈ st.clips, ∀ ch ∈ clip.channels,
      (ch.target_property = TargetProperty.Rotation →
        4 * ch.times.length ≤ ch.values.length) ∧
      (ch.target_property ≠ TargetProperty.Rotation →
        3 * ch.times.length ≤ ch.values.length)) :
    ∃ scene', update_animations scene dt = some scene' ∧
      scene'.skeletons = scene.skeletons := by
  have hfold : ∀ (anims : List AnimationState)
      (acc : List Entity × List AnimationState),
      (∀ st ∈ anims, ∀ clip ∈ st.clips, ∀ ch ∈ clip.channels,
        (ch.target_property = TargetProperty.Rotation →
          4 * ch.times.length ≤ ch.values.length) ∧
        (ch.target_property ≠ TargetProperty.Rotation →
          3 * ch.times.length ≤ ch.values.length)) →
      ∃ r, anims.foldlM (processAnimState dt) acc = some r := by
    intro anims
    induction anims with
    | nil => intro acc _; exact ⟨acc, rfl⟩
    | cons st anims ih =>
      intro acc hl
      rcases processAnimState_some dt acc st (hl st (by simp)) with ⟨acc', hacc'⟩
      rcases ih acc' (fun s hs => hl s (by simp [hs])) with ⟨r, hr⟩
      refine ⟨r, ?_⟩
      rw [List.foldlM_cons, hacc']
      exact hr
  rcases hfold scene.animations (scene.entities, []) hall with ⟨r, hr⟩
  refine ⟨{ scene with entities := r.1, animations := r.2 }, ?_, rfl⟩
  unfold update_animations
  simp only [Option.pure_def, Option.bind_eq_bind]
  rw [hr]
  rfl

/-- `update_skinned_meshes` never panics when each skeleton has an
inverse-bind matrix for each processed bone. -/
lemma update_skinned_meshes_some (scene : LoadedScene)
    (hib : ∀ sk ∈ scene.skeletons,
      min sk.bone_entity_indices.length MAX_BONES ≤
        sk.inverse_bind_matrices.length) :
    ∃ scene', update_skinned_meshes scene = some scene' := by
  have hall : ∀ sk ∈ scene.skeletons, ∃ y,
      processSkeleton scene.entities sk = some y := by
    intro sk hsk
    have hspec := processSkeleton_spec scene.entities sk (hib sk hsk)
    rcases he : scene.entities.get? sk.entity_index with _ | e
    · exact ⟨sk, hspec.1 he⟩
    · rcases hspec.2 e he with ⟨sk', hsk', _⟩
      exact ⟨sk', hsk'⟩
  rcases mapM_some_of_all _ scene.skeletons hall with ⟨skels, hskels⟩
  refine ⟨{ scene with skeletons := skels }, ?_⟩
  unfold update_skinned_meshes
  simp only [Option.pure_def, Option.bind_eq_bind]
  rw [hskels]
  rfl

/-- **C1** (amended): the full frame tick — `update_animations`, then
`compute_world_transforms`, then `update_skinned_meshes` — never panics
on any scene whose channel value buffers hold 3 values per keyframe for
position/scale channels and 4 for rotation channels, and whose skeletons
carry an inverse-bind matrix for each processed bone.  Out-of-range
target or bone entity indices, empty keyframe arrays and degenerate
intervals are all recovered by skipping; value buffers shorter than the
keyframes require are the one data error that panics instead of being
skipped.  (`ParticlePool.update` is a total function in this
development: its emission loops provably terminate.) -/
theorem c1_tick_spec (scene : LoadedScene) (dt : ℝ)
    (hvals : ∀ st ∈ scene.animations, ∀ clip ∈ st.clips, ∀ ch ∈ clip.channels,
      (ch.target_property = TargetProperty.Rotation →
        4 * ch.times.length ≤ ch.values.length) ∧
      (ch.target_property ≠ TargetProperty.Rotation →
        3 * ch.times.length ≤ ch.values.length))
    (hib : ∀ sk ∈ scene.skeletons,
      min sk.bone_entity_indices.length MAX_BONES ≤
        sk.inverse_bind_matrices.length) :
    ∃ scene', tick scene dt = some scene' := by
  rcases update_animations_some scene dt hvals with ⟨s1, hs1, hskel⟩
  have hib2 : ∀ sk ∈ ({ s1 with
      entities := compute_world_transforms s1.entities } :
        LoadedScene).skeletons,
      min sk.bone_entity_indices.length MAX_BONES ≤
        sk.inverse_bind_matrices.length := by
    intro sk hsk
    simp only at hsk
    rw [hskel] at hsk
    exact hib sk hsk
  rcases update_skinned_meshes_some _ hib2 with ⟨s3, hs3⟩
  refine ⟨s3, ?_⟩
  unfold tick
  simp only [Option.pure_def, Option.bind_eq_bind]
  rw [hs1, Option.some_bind]
  exact hs3

/-- **C1, counterexample to the original claim**: a scene with one
playing animation whose single channel has one keyframe but an *empty*
value buffer.  The claim says this malformed channel is skipped and the
tick completes; in the code `get_vec3` indexes the value buffer
unchecked, so the tick panics (`none`) instead. -/
theorem c1_tick_counterexample :
    update_animations (LoadedScene.mk
      [Entity.mk 0 none
        (TransformState.mk ⟨0, 0, 0⟩ ⟨0, 0, 0, 1⟩ ⟨1, 1, 1⟩ false) 1 none none]
      [AnimationState.mk
        [AnimationClip.mk ("" : String) 1
          [AnimationChannel.mk 0 TargetProperty.Position
            InterpolationMode.Linear [0] []]] 0 0 true false 1]
      []) 0 = none ∧
    tick (LoadedScene.mk
      [Entity.mk 0 none
        (TransformState.mk ⟨0, 0, 0⟩ ⟨0, 0, 0, 1⟩ ⟨1, 1, 1⟩ false) 1 none none]
      [AnimationState.mk
        [AnimationClip.mk ("" : String) 1
          [AnimationChannel.mk 0 TargetProperty.Position
            InterpolationMode.Linear [0] []]] 0 0 true false 1]
      []) 0 = none := by
  have hchan : ∀ time : ℝ, applyChannel
      [Entity.mk 0 none
        (TransformState.mk ⟨0, 0, 0⟩ ⟨0, 0, 0, 1⟩ ⟨1, 1, 1⟩ false) 1 none none]
      time
      (AnimationChannel.mk 0 TargetProperty.Position
        InterpolationMode.Linear [0] []) = none := by
    intro time
    unfold applyChannel
    rw [if_neg (by simp)]
    have hf : find_keyframe_index [(0 : ℝ)] time = some (0, 0, 0) := by
      simp [find_keyframe_index]
    rw [hf]
    simp [get_vec3]
  have hproc : processAnimState 0
      ([Entity.mk 0 none
        (TransformState.mk ⟨0, 0, 0⟩ ⟨0, 0, 0, 1⟩ ⟨1, 1, 1⟩ false) 1 none none],
       ([] : List AnimationState))
      (AnimationState.mk
        [AnimationClip.mk ("" : String) 1
          [AnimationChannel.mk 0 TargetProperty.Position
            InterpolationMode.Linear [0] []]] 0 0 true false 1) = none := by
    unfold processAnimState
    rw [if_neg (by simp), if_neg (by simp)]
    simp only [Int.toNat_zero, List.get?_cons_zero]
    unfold applyChannels
    rw [List.foldlM_cons, hchan]
    rfl
  have hupd : update_animations (LoadedScene.mk
      [Entity.mk 0 none
        (TransformState.mk ⟨0, 0, 0⟩ ⟨0, 0, 0, 1⟩ ⟨1, 1, 1⟩ false) 1 none none]
      [AnimationState.mk
        [AnimationClip.mk ("" : String) 1
          [AnimationChannel.mk 0 TargetProperty.Position
            InterpolationMode.Linear [0] []]] 0 0 true false 1]
      []) 0 = none := by
    unfold update_animations
    simp only [Option.pure_def, Option.bind_eq_bind]
    rw [List.foldlM_cons, hproc]
    rfl
  refine ⟨hupd, ?_⟩
  unfold tick
  simp only [Option.pure_def, Option.bind_eq_bind]
  rw [hupd]
  rfl

/-- **C1, witness**: the amended theorem applied to the empty scene. -/
theorem c1_tick_witness :
    (∀ st ∈ (LoadedScene.mk [] [] []).animations, ∀ clip ∈ st.clips,
      ∀ ch ∈ clip.channels,
      (ch.target_property = TargetProperty.Rotation →
        4 * ch.times.length ≤ ch.values.length) ∧
      (ch.target_property ≠ TargetProperty.Rotation →
        3 * ch.times.length ≤ ch.values.length)) ∧
    (∀ sk ∈ (LoadedScene.mk [] [] []).skeletons,
      min sk.bone_entity_indices.length MAX_BONES ≤
        sk.inverse_bind_matrices.length) ∧
    ∃ scene', tick (LoadedScene.mk [] [] []) 1 = some scene' := by
  have h1 : ∀ st ∈ (LoadedScene.mk [] [] []).animations, ∀ clip ∈ st.clips,
      ∀ ch ∈ clip.channels,
      (ch.target_property = TargetProperty.Rotation →
        4 * ch.times.length ≤ ch.values.length) ∧
      (ch.target_property ≠ TargetProperty.Rotation →
        3 * ch.times.length ≤ ch.values.length) := by
    intro st hst
    simp at hst
  have h2 : ∀ sk ∈ (LoadedScene.mk [] [] []).skeletons,
      min sk.bone_entity_indices.length MAX_BONES ≤
        sk.inverse_bind_matrices.length := by
    intro sk hsk
    simp at hsk
  exact ⟨h1, h2, c1_tick_spec (LoadedScene.mk [] [] []) 1 h1 h2⟩
